import Mathlib

/-!
# go-structify: schema providers and struct generation

A shallow embedding of `cmd/gostructify/database` (the three schema providers and
their type maps) and of `cmd/gostructify/structify` (the code emitter).

Conventions of the embedding.

* A Go `string` is a Lean `String`; the text is taken to be valid UTF-8, so that
  ranging over it yields its characters and `string(runes)` gives them back.
* A Go `map[string]ColumnDefinition` literal is an association list read with
  `List.lookup`; the literals have pairwise distinct keys.
* A provider's `Build` talks to a database.  Here it is a function of the rows the
  metadata query yields, each row being the three scanned values; connection,
  query and scan errors are outside the embedding.
* An `error` built by `fmt.Errorf` is its message, in `Except String`.
* A run-time panic (an index out of range) is `none` in `Option`.
* Messages written through `logrus` do not reach the returned value and are left out.
* Routines of the Go standard library whose behaviour rests on Unicode tables or on
  the formatting engine are collected in `GoLib` and passed as a parameter.
-/

namespace GoStructify

/-! ## Package `database`: the table description (`table.go`) -/

/-- `ColumnDefinition`: the three spellings of a field type. -/
structure ColumnDefinition where
  GoType : String
  GureguType : String
  SQLType : String
  deriving DecidableEq, Repr

/-- `Column`: one column of the table. -/
structure Column where
  Name : String
  DatabaseType : String
  DatabaseNullable : String
  Definition : ColumnDefinition
  deriving DecidableEq, Repr

/-- `Table`: the columns in the order they were appended, and the table name. -/
structure Table where
  Columns : List Column
  Name : String
  deriving DecidableEq, Repr

/-- One row of the metadata query, as `rows.Scan` stores it into
`c.Name`, `c.DatabaseType`, `c.DatabaseNullable`. -/
structure Row where
  column_name : String
  data_type : String
  is_nullable : String
  deriving DecidableEq, Repr

/-! ## The type maps -/

/-- The value given to the integer keys. -/
def intDef : ColumnDefinition := ⟨"int", "null.Int", "sql.NullInt64"⟩
/-- The value given to the string keys. -/
def stringDef : ColumnDefinition := ⟨"string", "null.String", "sql.NullString"⟩
/-- The value given to the time keys. -/
def timeDef : ColumnDefinition := ⟨"time.Time", "null.Time", "mysql.NullTime"⟩
/-- The value given to the float keys. -/
def floatDef : ColumnDefinition := ⟨"float64", "null.Float", "sql.NullFloat64"⟩
/-- The value given to the binary keys. -/
def bytesDef : ColumnDefinition := ⟨"[]byte", "[]byte", "[]byte"⟩
/-- The value given to the key `boolean`. -/
def boolDef : ColumnDefinition := ⟨"bool", "null.Bool", "null.Bool"⟩

/-- `mariaDBTypeMap` of `mariadb.go`, entry by entry. -/
def mariaDBTypeMap : List (String × ColumnDefinition) :=
  [ ("tinyint", intDef), ("int", intDef), ("smallint", intDef), ("mediumint", intDef),
    ("bigint", intDef),
    ("char", stringDef), ("set", stringDef), ("enum", stringDef), ("varchar", stringDef),
    ("tinytext", stringDef), ("longtext", stringDef), ("mediumtext", stringDef),
    ("text", stringDef),
    ("date", timeDef), ("datetime", timeDef), ("time", timeDef), ("year", timeDef),
    ("timestamp", timeDef),
    ("decimal", floatDef), ("double", floatDef), ("float", floatDef),
    ("binary", bytesDef), ("blob", bytesDef), ("tinyblob", bytesDef), ("longblob", bytesDef),
    ("mediumblob", bytesDef), ("varbinary", bytesDef) ]

/-- `postgresTypeMap` of `postgresql.go`, entry by entry. -/
def postgresTypeMap : List (String × ColumnDefinition) :=
  [ ("bigint", intDef), ("bigserial", intDef), ("integer", intDef), ("int", intDef),
    ("int4", intDef), ("smallint", intDef), ("int2", intDef), ("smallserial", intDef),
    ("serial2", intDef), ("serial", intDef), ("serial4", intDef),
    ("char", stringDef), ("character", stringDef), ("character varying", stringDef),
    ("varchar", stringDef), ("cidr", stringDef), ("inet", stringDef), ("json", stringDef),
    ("macaddr", stringDef), ("text", stringDef), ("xml", stringDef),
    ("date", timeDef), ("time", timeDef), ("time without time zone", timeDef),
    ("time with time zone", timeDef), ("timetz", timeDef), ("timestamp", timeDef),
    ("timestamp without time zone", timeDef), ("timestamp with time zone", timeDef),
    ("timestamptz", timeDef), ("interval", timeDef),
    ("double precision", floatDef), ("float8", floatDef), ("money", floatDef),
    ("numeric", floatDef), ("decimal", floatDef), ("real", floatDef),
    ("bit", bytesDef), ("bit varying", bytesDef), ("bytea", bytesDef), ("jsonb", bytesDef),
    ("boolean", boolDef) ]

/-- `verticaTypeMap` of `vertica.go`, entry by entry. -/
def verticaTypeMap : List (String × ColumnDefinition) :=
  [ ("tinyint", intDef), ("int", intDef), ("smallint", intDef), ("mediumint", intDef),
    ("bigint", intDef),
    ("char", stringDef), ("character", stringDef), ("varchar", stringDef),
    ("character varying", stringDef), ("long varchar", stringDef),
    ("date", timeDef), ("datetime", timeDef), ("smalldatetime", timeDef), ("time", timeDef),
    ("timestamp", timeDef),
    ("float", floatDef), ("float8", floatDef), ("float16", floatDef), ("float32", floatDef),
    ("float64", floatDef), ("numeric", floatDef), ("number", floatDef),
    ("double precision", floatDef), ("real precision", floatDef),
    ("binary", bytesDef), ("varbinary", bytesDef), ("binary varying", bytesDef),
    ("bytea", bytesDef), ("raw", bytesDef),
    ("boolean", boolDef) ]

/-! ## Removal of sizes: the two `regexp` replacements -/

/-- Number of leading characters in `0`..`9`: the longest match of `[0-9]*`. -/
def digitsLen : List Char → Nat
  | [] => 0
  | c :: cs => if c.isDigit then digitsLen cs + 1 else 0

/-- Length of the match of `\([0-9]+\)` that starts at the head of the text, if there
is one.  The digits are followed by `)`, which is no digit, so the greedy run of
digits is the only candidate. -/
def matchSize : List Char → Option Nat
  | '(' :: cs =>
    let n := digitsLen cs
    if 1 ≤ n ∧ (cs.drop n).head? = some ')' then some (n + 2) else none
  | _ => none

/-- Length of the match of `\([0-9]+,[0-9]+\)` that starts at the head of the text, if
there is one. -/
def matchPrecision : List Char → Option Nat
  | '(' :: cs =>
    let n := digitsLen cs
    let cs1 := cs.drop n
    let m := digitsLen cs1.tail
    if 1 ≤ n ∧ cs1.head? = some ',' ∧ 1 ≤ m ∧ (cs1.tail.drop m).head? = some ')'
    then some (n + m + 3) else none
  | _ => none

/-- `ReplaceAllString(src, "")` for a pattern that never matches the empty text:
scan from the left; where a match starts, leave out its characters and go on behind
it; otherwise keep the character.  `pending` counts the characters of the current
match still to be left out. -/
def removeMatches (matchAt : List Char → Option Nat) : Nat → List Char → List Char
  | _, [] => []
  | pending + 1, _ :: cs => removeMatches matchAt pending cs
  | 0, c :: cs =>
    match matchAt (c :: cs) with
    | some n => removeMatches matchAt (n - 1) cs
    | none => c :: removeMatches matchAt 0 cs

/-- The size removal shared by `PostgreSQL.Build` and `Vertica.Build`: first every
`\([0-9]+\)`, then every `\([0-9]+,[0-9]+\)`. -/
def removeSizes (databaseType : String) : String :=
  String.mk (removeMatches matchPrecision 0 (removeMatches matchSize 0 databaseType.data))

/-! ## The providers -/

/-- Message of the error returned on a type that is no key of the map. -/
def unrecognizedColumnType (databaseType : String) : String :=
  "Unrecognized column type field: " ++ databaseType

/-- Message of the error returned when no column was appended. -/
def noRowsReturned (database table : String) : String :=
  "No rows returned from the information schema for TABLE_SCHEMA " ++ database ++
    " and TABLE_NAME " ++ table

/-- The `for rows.Next()` loop, which the three providers share word for word apart
from the size removal and the map: the scanned type is rewritten by `sizes`, looked
up in `typeMap`, and the column is appended to `t.Columns`; a miss returns at once. -/
def scanRows (sizes : String → String) (typeMap : List (String × ColumnDefinition)) :
    Table → List Row → Except String Table
  | t, [] => .ok t
  | t, r :: rows =>
    let databaseType := sizes r.data_type
    match typeMap.lookup databaseType with
    | none => .error (unrecognizedColumnType databaseType)
    | some d =>
      scanRows sizes typeMap
        { t with Columns := t.Columns ++ [⟨r.column_name, databaseType, r.is_nullable, d⟩] } rows

/-- What follows the opening of the query in each `Build`: the loop over the rows,
then the check that some column was appended. -/
def buildTable (sizes : String → String) (typeMap : List (String × ColumnDefinition))
    (database table : String) (rows : List Row) : Except String Table :=
  match scanRows sizes typeMap { Columns := [], Name := table } rows with
  | .error e => .error e
  | .ok t =>
    if t.Columns.length = 0 then .error (noRowsReturned database table) else .ok t

/-- `MariaDB.Build`: the scanned type is looked up as it is. -/
def MariaDB.Build (database table : String) (rows : List Row) : Except String Table :=
  buildTable (fun databaseType => databaseType) mariaDBTypeMap database table rows

/-- `PostgreSQL.Build`: sizes are removed before the lookup. -/
def PostgreSQL.Build (database table : String) (rows : List Row) : Except String Table :=
  buildTable removeSizes postgresTypeMap database table rows

/-- `Vertica.Build`: sizes are removed before the lookup. -/
def Vertica.Build (database table : String) (rows : List Row) : Except String Table :=
  buildTable removeSizes verticaTypeMap database table rows

/-- The implementations of the interface `Database` under `database/`.  The
connection settings they hold play no part once the rows are given. -/
inductive Database where
  | MariaDB
  | PostgreSQL
  | Vertica
  deriving DecidableEq, Repr

/-- The interface call `d.Build(db, table)` of `process`. -/
def Database.Build : Database → String → String → List Row → Except String Table
  | .MariaDB => MariaDB.Build
  | .PostgreSQL => PostgreSQL.Build
  | .Vertica => Vertica.Build

/-- The map a provider looks types up in. -/
def Database.typeMap : Database → List (String × ColumnDefinition)
  | .MariaDB => mariaDBTypeMap
  | .PostgreSQL => postgresTypeMap
  | .Vertica => verticaTypeMap

/-- What a provider does to the scanned type before the lookup. -/
def Database.normalize : Database → String → String
  | .MariaDB => fun databaseType => databaseType
  | .PostgreSQL => removeSizes
  | .Vertica => removeSizes

/-! ## Library routines taken as parameters -/

/-- The routines of the Go library that the emitter calls and whose results rest on
the Unicode tables or on the formatting engine. -/
structure GoLib where
  /-- `unicode.ToUpper`. -/
  ToUpper : Char → Char
  /-- `unicode.ToLower`, which `strings.ToLower` applies to each character. -/
  ToLower : Char → Char
  /-- The quoted form in which `structtag` prints the value of a tag. -/
  Quote : String → String
  /-- The text `fmt.Fprintf(w, format)` writes when it is given no operand. -/
  Sprintf : String → String

/-- A format without operands, read from the left: text is copied, `%%` gives `%`,
any other verb has nothing to print and a `%` at the end has no verb.  Flags, widths,
precisions and operand indexes between `%` and the verb are not covered. -/
def sprintfNoOperands : List Char → List Char
  | [] => []
  | '%' :: [] => "%!(NOVERB)".data
  | '%' :: '%' :: cs => '%' :: sprintfNoOperands cs
  | '%' :: verb :: cs => "%!".data ++ [verb] ++ "(MISSING)".data ++ sprintfNoOperands cs
  | c :: cs => c :: sprintfNoOperands cs

/-- The library on ASCII text: case mapping of the letters `a`..`z` and `A`..`Z`,
quoting of a value that needs no escape, and `sprintfNoOperands`. -/
def asciiLib : GoLib where
  ToUpper := Char.toUpper
  ToLower := Char.toLower
  Quote := fun value => "\"" ++ value ++ "\""
  Sprintf := fun format => String.mk (sprintfNoOperands format.data)

/-- `strings.Split` on the characters of the text, for a separator of one character:
the pieces between the separators, one more than there are separators. -/
def splitChars (sep : Char) : List Char → List (List Char)
  | [] => [[]]
  | c :: cs =>
    if c = sep then [] :: splitChars sep cs
    else
      match splitChars sep cs with
      | [] => [[c]]
      | w :: ws => (c :: w) :: ws

/-- `strings.Split(s, sep)` for a separator of one character. -/
def Split (s : String) (sep : Char) : List String :=
  (splitChars sep s.data).map String.mk

/-! ## Package `structify`: the tags -/

/-- `structtag.Tag`. -/
structure Tag where
  Key : String
  Name : String
  Options : List String
  deriving DecidableEq, Repr

/-- `strings.ToLower`: `unicode.ToLower` on every character. -/
def ToLower (lib : GoLib) (s : String) : String :=
  String.mk (s.data.map lib.ToLower)

/-- `JSONTags`. -/
def JSONTags (lib : GoLib) (c : Column) : Tag :=
  ⟨"json", ToLower lib c.Name, ["omitempty"]⟩

/-- `CSVTags`. -/
def CSVTags (lib : GoLib) (c : Column) : Tag :=
  ⟨"csv", ToLower lib c.Name, ["omitempty"]⟩

/-- `XMLTags`. -/
def XMLTags (lib : GoLib) (c : Column) : Tag :=
  ⟨"xml", ToLower lib c.Name, ["omitempty"]⟩

/-- `GormTags`. -/
def GormTags (c : Column) : Tag :=
  ⟨"gorm", "column:" ++ c.Name, []⟩

/-- `SQLXTags`. -/
def SQLXTags (c : Column) : Tag :=
  ⟨"db", c.Name, []⟩

/-- `(*structtag.Tags).Set`: a tag without key is refused (the error is dropped by the
caller); a tag whose key is present takes the place of the old one; any other tag is
appended. -/
def Tags.Set (tags : List Tag) (tag : Tag) : List Tag :=
  if tag.Key = "" then tags
  else if tags.any (fun tg => tg.Key = tag.Key) then
    tags.map (fun tg => if tg.Key = tag.Key then tag else tg)
  else tags ++ [tag]

/-- The order `a < b` of Go on strings: the first position at which the texts differ
decides, and a proper beginning of a text comes before it.  On UTF-8 text the order
of the bytes is the order of the characters. -/
def stringLess : List Char → List Char → Bool
  | _, [] => false
  | [], _ :: _ => true
  | a :: as, b :: bs =>
    if a.toNat < b.toNat then true
    else if b.toNat < a.toNat then false
    else stringLess as bs

/-- `sort.Sort` on `structtag.Tags`, whose `Less` compares the keys.  The keys held
are pairwise distinct, so the sorted order does not depend on the algorithm. -/
def Tags.Sort (tags : List Tag) : List Tag :=
  tags.insertionSort (fun a b => stringLess b.Key.data a.Key.data = false)

/-- `(*structtag.Tag).Value`: the name, then the options, separated by commas. -/
def Tag.Value (t : Tag) : String :=
  let options := ",".intercalate t.Options
  if options ≠ "" then t.Name ++ "," ++ options else t.Name

/-- `(*structtag.Tag).String`: the key, a colon, the quoted value. -/
def Tag.String (lib : GoLib) (t : Tag) : String :=
  t.Key ++ ":" ++ lib.Quote t.Value

/-- `(*structtag.Tags).String`, which `fmt.Sprint` calls: the tags separated by one
blank. -/
def Tags.String (lib : GoLib) (tags : List Tag) : String :=
  " ".intercalate (tags.map (Tag.String lib))

/-- The tag the `switch` of `fieldTags` assigns to `t` for one option; the `default`
branch leaves `t` at its zero value. -/
def optionTag (lib : GoLib) (c : Column) (o : String) : Tag :=
  if o = "json" then JSONTags lib c
  else if o = "xml" then XMLTags lib c
  else if o = "gorm" then GormTags c
  else if o = "sqlx" then SQLXTags c
  else if o = "csv" then CSVTags lib c
  else ⟨"", "", []⟩

/-- `fieldTags`: every option sets its tag, the tags are sorted by key and printed. -/
def fieldTags (lib : GoLib) (c : Column) (options : List String) : String :=
  let ts := options.foldl (fun ts o => Tags.Set ts (optionTag lib c o)) []
  Tags.String lib (Tags.Sort ts)

/-! ## Package `structify`: names, types, methods and the emitter -/

/-- The inner loop `for _, c := range w` of `structName` and `fieldName`: the
characters of the word are appended to `runes`, the one met while `first` holds
after `unicode.ToUpper`. -/
def appendWord (lib : GoLib) : Bool → List Char → List Char → List Char
  | _, runes, [] => runes
  | first, runes, c :: w =>
    appendWord lib false (runes ++ [if first then lib.ToUpper c else c]) w

/-- `structName`. -/
def structName (lib : GoLib) (tablename : String) : String :=
  String.mk ((Split tablename '_').foldl (fun runes w => appendWord lib true runes w.data) [])

/-- `fieldName`. -/
def fieldName (lib : GoLib) (c : Column) : String :=
  String.mk ((Split c.Name '_').foldl (fun runes w => appendWord lib true runes w.data) [])

/-- `fieldType`. -/
def fieldType (c : Column) (nullabletype : String) : String :=
  if c.DatabaseNullable = "YES" ∨ c.DatabaseNullable = "t" ∨ c.DatabaseNullable = "true" then
    if nullabletype = "guregu" then c.Definition.GureguType
    else if nullabletype = "sql" then c.Definition.SQLType
    else c.Definition.GoType
  else c.Definition.GoType

/-- First byte of the UTF-8 encoding of a character: what `structname[0]` reads. -/
def leadByte (c : Char) : Nat :=
  if c.toNat < 0x80 then c.toNat
  else if c.toNat < 0x800 then 0xC0 + c.toNat / 0x40
  else if c.toNat < 0x10000 then 0xE0 + c.toNat / 0x1000
  else 0xF0 + c.toNat / 0x40000

/-- `GormTableName`.  Indexing `structname[0]` panics on the empty name; the byte read
is converted to the string of that code point and lower-cased. -/
def GormTableName (lib : GoLib) (structname tablename : String) : Option String :=
  match structname.data with
  | [] => none
  | c :: _ =>
    some ("\n  // TableName manually overrides gorms defaults of taking the struct name and pluralizing it \n  // http://jinzhu.me/gorm/models.html#conventions\n\tfunc ("
      ++ ToLower lib (String.mk [Char.ofNat (leadByte c)]) ++ " *" ++ structname
      ++ ") TableName() string \x7b\n\t\t\treturn \"" ++ tablename ++ "\"\n\t\x7d" ++ "\n")

/-- The loop of `structMethods` over the options, appending to `methods`. -/
def appendMethods (lib : GoLib) (structname tablename : String) :
    List String → List String → Option (List String)
  | methods, [] => some methods
  | methods, o :: options =>
    if o = "gorm" then
      match GormTableName lib structname tablename with
      | none => none
      | some m => appendMethods lib structname tablename (methods ++ [m]) options
    else appendMethods lib structname tablename methods options

/-- `structMethods`. -/
def structMethods (lib : GoLib) (structname tablename : String) (options : List String) :
    Option String :=
  (appendMethods lib structname tablename [] options).map (fun methods => "\n".intercalate methods)

/-- The global string flags of the `cli.Context` that `Generate` reads. -/
structure Context where
  tags : String
  nullabletype : String
  methods : String
  deriving DecidableEq, Repr

/-- The text one pass of the loop over `t.Columns` writes to the buffer. -/
def fieldLine (lib : GoLib) (c : Context) (column : Column) : String :=
  if c.tags ≠ "" then
    fieldName lib column ++ " \t " ++ fieldType column c.nullabletype ++ " \t `"
      ++ fieldTags lib column (Split c.tags ',') ++ "`\n"
  else
    fieldName lib column ++ " \t " ++ fieldType column c.nullabletype ++ " \t\n"

/-- `Generate`: the bytes of the buffer at the end, as text. -/
def Generate (lib : GoLib) (c : Context) (dbName : String) (t : Table) : Option String :=
  let buf := "// " ++ structName lib t.Name ++ " is the go struct representation of " ++ dbName
    ++ "." ++ t.Name ++ " \n type " ++ structName lib t.Name ++ " struct \x7b\n"
  let buf := t.Columns.foldl (fun buf column => buf ++ fieldLine lib c column) buf
  let buf := buf ++ "\n\x7d\n\n"
  if c.methods ≠ "" then
    match structMethods lib (structName lib t.Name) t.Name (Split c.methods ',') with
    | none => none
    | some methods => some (buf ++ lib.Sprintf methods)
  else some buf


/-- The text `Generate` emits when each column is spelled by a given function:
the header and the opening of the type, one line per column with the field name, the
spelling and the tags when tags are asked for, the closing, and the text of the
methods when methods are asked for.  Nothing but `spelling` looks at a nullable mode. -/
def emittedWith (lib : GoLib) (tags methods dbName : String) (t : Table)
    (spelling : Column → String) : Option String :=
  (if methods ≠ "" then
      (structMethods lib (structName lib t.Name) t.Name (Split methods ',')).map lib.Sprintf
    else some "").map
    (fun methodsText =>
      "// " ++ structName lib t.Name ++ " is the go struct representation of " ++ dbName
        ++ "." ++ t.Name ++ " \n type " ++ structName lib t.Name ++ " struct \x7b\n"
        ++ String.join (t.Columns.map (fun column =>
            fieldName lib column ++ " \t " ++ spelling column ++
              (if tags ≠ "" then " \t `" ++ fieldTags lib column (Split tags ',') ++ "`\n"
               else " \t\n")))
        ++ "\n\x7d\n\n" ++ methodsText)

/-! ## Auxiliary facts -/

theorem noRows_ne_unrecognized (database table databaseType : String) :
    noRowsReturned database table ≠ unrecognizedColumnType databaseType := by
  intro h
  have h2 := congrArg String.data h
  simp [noRowsReturned, unrecognizedColumnType, String.data_append] at h2

/-- The loop keeps the name and the columns already there, and appends one resolved
column per row, in the order of the rows. -/
theorem scanRows_ok (sizes : String → String) (typeMap : List (String × ColumnDefinition))
    (rows : List Row) :
    ∀ t t2 : Table, scanRows sizes typeMap t rows = .ok t2 →
      t2.Name = t.Name ∧ ∃ cols, t2.Columns = t.Columns ++ cols ∧
        List.Forall₂ (fun (r : Row) (c : Column) =>
          c.Name = r.column_name ∧ c.DatabaseType = sizes r.data_type ∧
          c.DatabaseNullable = r.is_nullable ∧
          typeMap.lookup (sizes r.data_type) = some c.Definition) rows cols := by
  induction rows with
  | nil =>
    intro t t2 h
    simp only [scanRows, Except.ok.injEq] at h
    subst h
    exact ⟨rfl, [], by simp, List.Forall₂.nil⟩
  | cons r rows ih =>
    intro t t2 h
    simp only [scanRows] at h
    cases hl : typeMap.lookup (sizes r.data_type) with
    | none => simp [hl] at h
    | some d =>
      simp only [hl] at h
      obtain ⟨hn, cols, hc, hf⟩ := ih _ _ h
      refine ⟨hn, ⟨r.column_name, sizes r.data_type, r.is_nullable, d⟩ :: cols, ?_, ?_⟩
      · simpa using hc
      · exact List.Forall₂.cons ⟨rfl, rfl, rfl, hl⟩ hf

/-- The loop fails exactly when some row has a type that is no key, and then with the
message of the first such type. -/
theorem scanRows_error (sizes : String → String) (typeMap : List (String × ColumnDefinition))
    (rows : List Row) :
    ∀ t : Table, (∃ e, scanRows sizes typeMap t rows = .error e) ↔
      ∃ r ∈ rows, typeMap.lookup (sizes r.data_type) = none := by
  induction rows with
  | nil => intro t; simp [scanRows]
  | cons r rows ih =>
    intro t
    simp only [scanRows]
    cases hl : typeMap.lookup (sizes r.data_type) with
    | none => exact ⟨fun _ => ⟨r, List.mem_cons_self _ _, hl⟩, fun _ => ⟨_, rfl⟩⟩
    | some d =>
      simp only []
      rw [ih]
      constructor
      · rintro ⟨r2, hr2, h2⟩
        exact ⟨r2, List.mem_cons_of_mem _ hr2, h2⟩
      · rintro ⟨r2, hr2, h2⟩
        rcases List.mem_cons.mp hr2 with h3 | h3
        · subst h3
          rw [hl] at h2
          exact absurd h2 (by simp)
        · exact ⟨r2, h3, h2⟩

theorem scanRows_error_form (sizes : String → String)
    (typeMap : List (String × ColumnDefinition)) (rows : List Row) :
    ∀ (t : Table) (e : String), scanRows sizes typeMap t rows = .error e →
      ∃ r ∈ rows, e = unrecognizedColumnType (sizes r.data_type) := by
  induction rows with
  | nil => intro t e h; simp [scanRows] at h
  | cons r rows ih =>
    intro t e h
    simp only [scanRows] at h
    cases hl : typeMap.lookup (sizes r.data_type) with
    | none =>
      simp only [hl, Except.error.injEq] at h
      exact ⟨r, by simp, h.symm⟩
    | some d =>
      simp only [hl] at h
      obtain ⟨r2, hr2, he⟩ := ih _ _ h
      exact ⟨r2, by simp [hr2], he⟩

theorem Database.Build_eq (d : Database) :
    d.Build = buildTable d.normalize d.typeMap := by
  cases d <;> rfl

theorem buildTable_unrecognized (sizes : String → String)
    (typeMap : List (String × ColumnDefinition)) (database table : String) (rows : List Row) :
    (∃ ty, buildTable sizes typeMap database table rows = .error (unrecognizedColumnType ty)) ↔
      ∃ r ∈ rows, typeMap.lookup (sizes r.data_type) = none := by
  constructor
  · rintro ⟨ty, h⟩
    unfold buildTable at h
    cases hs : scanRows sizes typeMap { Columns := [], Name := table } rows with
    | error e => exact (scanRows_error sizes typeMap rows _).mp ⟨e, hs⟩
    | ok t =>
      rw [hs] at h
      by_cases hz : t.Columns.length = 0
      · simp only [hz, if_true, Except.error.injEq] at h
        exact absurd h (noRows_ne_unrecognized _ _ _)
      · simp [hz] at h
  · intro h
    obtain ⟨e, he⟩ := (scanRows_error sizes typeMap rows { Columns := [], Name := table }).mpr h
    obtain ⟨r, _, hr⟩ := scanRows_error_form sizes typeMap rows _ _ he
    refine ⟨sizes r.data_type, ?_⟩
    unfold buildTable
    rw [he, hr]

theorem buildTable_ok (sizes : String → String)
    (typeMap : List (String × ColumnDefinition)) (database table : String) (rows : List Row)
    (t : Table) (h : buildTable sizes typeMap database table rows = .ok t) :
    t.Name = table ∧ t.Columns ≠ [] ∧
      List.Forall₂ (fun (r : Row) (c : Column) =>
        c.Name = r.column_name ∧ c.DatabaseType = sizes r.data_type ∧
        c.DatabaseNullable = r.is_nullable ∧
        typeMap.lookup (sizes r.data_type) = some c.Definition) rows t.Columns := by
  unfold buildTable at h
  cases hs : scanRows sizes typeMap { Columns := [], Name := table } rows with
  | error e => rw [hs] at h; simp at h
  | ok t2 =>
    rw [hs] at h
    by_cases hz : t2.Columns.length = 0
    · simp [hz] at h
    · simp only [hz, if_false, Except.ok.injEq] at h
      subst h
      obtain ⟨hn, cols, hc, hf⟩ := scanRows_ok sizes typeMap rows _ _ hs
      simp only [List.nil_append] at hc
      refine ⟨hn, ?_, ?_⟩
      · intro h0
        exact hz (by simp [h0])
      · rw [hc]
        exact hf

theorem forall₂_of_mem_right {α β : Type} {R : α → β → Prop} {l1 : List α} {l2 : List β}
    (h : List.Forall₂ R l1 l2) : ∀ b ∈ l2, ∃ a ∈ l1, R a b := by
  induction h with
  | nil => intro b hb; simp at hb
  | cons hab _ ih =>
    intro b hb
    rcases List.mem_cons.mp hb with h1 | h1
    · subst h1
      exact ⟨_, List.mem_cons_self _ _, hab⟩
    · obtain ⟨a, ha, hr⟩ := ih b h1
      exact ⟨a, List.mem_cons_of_mem _ ha, hr⟩

/-- C1. For each provider, `Build` on the rows of the metadata query fails with the
error `Unrecognized column type field` if and only if some row has a type that, after
the provider's treatment of the scanned type, is no key of the provider's map.  No
type outside the map is given a definition: on success every column holds the entry
of the map for its type, and a MariaDB row of type `geometry` makes `Build` fail. -/
theorem build_unrecognized_iff_unmapped (d : Database) (database table : String)
    (rows : List Row) :
    ((∃ ty, d.Build database table rows = .error ("Unrecognized column type field: " ++ ty)) ↔
      ∃ r ∈ rows, d.typeMap.lookup (d.normalize r.data_type) = none) ∧
    (∀ t, d.Build database table rows = .ok t →
      ∀ c ∈ t.Columns, d.typeMap.lookup c.DatabaseType = some c.Definition) ∧
    ((∃ r ∈ rows, r.data_type = "geometry") →
      ∃ ty, Database.MariaDB.Build database table rows =
        .error ("Unrecognized column type field: " ++ ty)) ∧
    (∀ name nullable, Database.MariaDB.Build database table [⟨name, "geometry", nullable⟩] =
      .error "Unrecognized column type field: geometry") := by
  refine ⟨?_, ?_, ?_, ?_⟩
  · rw [Database.Build_eq]
    exact buildTable_unrecognized _ _ _ _ _
  · intro t h c hc
    rw [Database.Build_eq] at h
    obtain ⟨_, _, hf⟩ := buildTable_ok _ _ _ _ _ _ h
    obtain ⟨r, _, _, hty, _, hl⟩ := forall₂_of_mem_right hf c hc
    rw [hty]
    exact hl
  · rintro ⟨r, hr, hg⟩
    rw [Database.Build_eq]
    refine (buildTable_unrecognized _ _ _ _ _).mpr ⟨r, hr, ?_⟩
    rw [hg]
    rfl
  · intro name nullable
    rfl

theorem build_unrecognized_iff_unmapped_witness :
    ∃ ty, Database.MariaDB.Build "shop" "places"
        [⟨"id", "int", "NO"⟩, ⟨"shape", "geometry", "YES"⟩] =
      .error ("Unrecognized column type field: " ++ ty) :=
  (build_unrecognized_iff_unmapped Database.MariaDB "shop" "places"
    [⟨"id", "int", "NO"⟩, ⟨"shape", "geometry", "YES"⟩]).2.2.1
    ⟨⟨"shape", "geometry", "YES"⟩, by simp, rfl⟩

/-- C4. For every provider, database name and table name, `Build` on a query result
without rows returns no table and fails with the error that names the database and
the table; a table that `Build` returns always has at least one column. -/
theorem build_no_rows (d : Database) (database table : String) :
    d.Build database table [] =
      .error ("No rows returned from the information schema for TABLE_SCHEMA " ++ database ++
        " and TABLE_NAME " ++ table) ∧
    (∀ t, d.Build database table [] ≠ .ok t) ∧
    (∀ rows t, d.Build database table rows = .ok t → t.Columns ≠ []) := by
  refine ⟨?_, ?_, ?_⟩
  · cases d <;> rfl
  · intro t h
    cases d <;> exact absurd h (by simp [Database.Build, MariaDB.Build, PostgreSQL.Build, Vertica.Build, buildTable, scanRows])
  · intro rows t h
    rw [Database.Build_eq] at h
    exact (buildTable_ok _ _ _ _ _ _ h).2.1

theorem build_no_rows_witness :
    (⟨[⟨"id", "int", "NO", intDef⟩], "users"⟩ : Table).Columns ≠ [] :=
  (build_no_rows Database.Vertica "shop" "users").2.2 [⟨"id", "int(11)", "NO"⟩]
    ⟨[⟨"id", "int", "NO", intDef⟩], "users"⟩ rfl

/-- C5. For every provider, when `Build` succeeds on a list of rows, the table has
the requested name and as many columns as there are rows, and the column at each
index holds the name and the nullable flag of the row at that index and the entry
of the provider's map for that row's type after the provider's treatment of it: no
row is moved, left out or repeated. -/
theorem build_preserves_rows (d : Database) (database table : String) (rows : List Row)
    (t : Table) (h : d.Build database table rows = .ok t) :
    t.Name = table ∧ t.Columns.length = rows.length ∧
    ∀ (i : Nat) (r : Row), rows[i]? = some r →
      ∃ c, t.Columns[i]? = some c ∧ c.Name = r.column_name ∧
        c.DatabaseNullable = r.is_nullable ∧
        d.typeMap.lookup (d.normalize r.data_type) = some c.Definition := by
  rw [Database.Build_eq] at h
  obtain ⟨hn, _, hf⟩ := buildTable_ok _ _ _ _ _ _ h
  refine ⟨hn, hf.length_eq.symm, ?_⟩
  intro i r hr
  have hlen := hf.length_eq
  have hi : i < rows.length := by
    rcases List.getElem?_eq_some.mp hr with ⟨hi, _⟩
    exact hi
  have hi2 : i < t.Columns.length := hlen ▸ hi
  have hr2 : rows[i] = r := by
    rcases List.getElem?_eq_some.mp hr with ⟨_, h2⟩
    exact h2
  have hrel := (List.forall₂_iff_get.mp hf).2 i hi hi2
  refine ⟨t.Columns[i], List.getElem?_eq_getElem hi2, ?_⟩
  simp only [List.get_eq_getElem] at hrel
  rw [hr2] at hrel
  exact ⟨hrel.1, hrel.2.2.1, hrel.2.2.2⟩

theorem build_preserves_rows_witness :
    ∃ t, Database.PostgreSQL.Build "shop" "user_accounts"
        [⟨"id", "integer", "NO"⟩, ⟨"email", "character varying(255)", "YES"⟩] = .ok t ∧
      t.Name = "user_accounts" ∧ t.Columns.length = 2 ∧
      ∀ (i : Nat) (r : Row),
        [(⟨"id", "integer", "NO"⟩ : Row), ⟨"email", "character varying(255)", "YES"⟩][i]? = some r →
        ∃ c, t.Columns[i]? = some c ∧ c.Name = r.column_name ∧
          c.DatabaseNullable = r.is_nullable ∧
          Database.PostgreSQL.typeMap.lookup (Database.PostgreSQL.normalize r.data_type) =
            some c.Definition :=
  ⟨⟨[⟨"id", "integer", "NO", intDef⟩, ⟨"email", "character varying", "YES", stringDef⟩],
      "user_accounts"⟩, rfl,
    build_preserves_rows Database.PostgreSQL "shop" "user_accounts"
      [⟨"id", "integer", "NO"⟩, ⟨"email", "character varying(255)", "YES"⟩] _ rfl⟩

theorem matchSize_ne (c : Char) (cs : List Char) (h : c ≠ '(') : matchSize (c :: cs) = none := by
  unfold matchSize
  split
  · rename_i heq
    simp only [List.cons.injEq] at heq
    exact absurd heq.1 h
  · rfl

theorem matchPrecision_ne (c : Char) (cs : List Char) (h : c ≠ '(') :
    matchPrecision (c :: cs) = none := by
  unfold matchPrecision
  split
  · rename_i heq
    simp only [List.cons.injEq] at heq
    exact absurd heq.1 h
  · rfl

theorem removeMatches_drop (matchAt : List Char → Option Nat) (cs : List Char) :
    ∀ pending, removeMatches matchAt pending cs = removeMatches matchAt 0 (cs.drop pending) := by
  induction cs with
  | nil => intro pending; cases pending <;> simp [removeMatches]
  | cons c cs ih =>
    intro pending
    cases pending with
    | zero => rfl
    | succ k => simp only [removeMatches, List.drop_succ_cons]; exact ih k

theorem removeMatches_keep (matchAt : List Char → Option Nat)
    (hm : ∀ c cs, c ≠ '(' → matchAt (c :: cs) = none) (p r : List Char)
    (hp : ∀ c ∈ p, c ≠ '(') :
    removeMatches matchAt 0 (p ++ r) = p ++ removeMatches matchAt 0 r := by
  induction p with
  | nil => rfl
  | cons c p ih =>
    have hc : c ≠ '(' := hp c (List.mem_cons_self _ _)
    have ih2 := ih (fun x hx => hp x (List.mem_cons_of_mem _ hx))
    show removeMatches matchAt 0 (c :: (p ++ r)) = c :: (p ++ removeMatches matchAt 0 r)
    rw [removeMatches, hm c (p ++ r) hc, ih2]

theorem digitsLen_append (n r : List Char) (hn : ∀ c ∈ n, c.isDigit = true) :
    digitsLen (n ++ r) = n.length + digitsLen r := by
  induction n with
  | nil => simp
  | cons c n ih =>
    have hc := hn c (List.mem_cons_self _ _)
    have ih2 := ih (fun x hx => hn x (List.mem_cons_of_mem _ hx))
    show digitsLen (c :: (n ++ r)) = (c :: n).length + digitsLen r
    rw [digitsLen, if_pos hc, ih2, List.length_cons]
    omega

theorem isDigit_ne_paren (c : Char) (h : c.isDigit = true) : c ≠ '(' := by
  rintro rfl
  exact absurd h (by decide)

theorem removeMatches_plain (matchAt : List Char → Option Nat)
    (hm : ∀ c cs, c ≠ '(' → matchAt (c :: cs) = none) (p : List Char)
    (hp : ∀ c ∈ p, c ≠ '(') : removeMatches matchAt 0 p = p := by
  have h := removeMatches_keep matchAt hm p [] hp
  simpa [removeMatches] using h

theorem matchSize_hit (n r : List Char) (hn : ∀ c ∈ n, c.isDigit = true) (h0 : n ≠ []) :
    matchSize ('(' :: (n ++ ')' :: r)) = some (n.length + 2) := by
  have hd : digitsLen (n ++ ')' :: r) = n.length := by
    rw [digitsLen_append n _ hn]
    simp [digitsLen]
  have hpos : 1 ≤ n.length := List.length_pos.mpr h0
  simp [matchSize, hd, hpos]

theorem matchSize_comma (n r : List Char) (hn : ∀ c ∈ n, c.isDigit = true) :
    matchSize ('(' :: (n ++ ',' :: r)) = none := by
  have hd : digitsLen (n ++ ',' :: r) = n.length := by
    rw [digitsLen_append n _ hn]
    simp [digitsLen]
  simp [matchSize, hd]

theorem matchPrecision_hit (n m r : List Char) (hn : ∀ c ∈ n, c.isDigit = true)
    (hm : ∀ c ∈ m, c.isDigit = true) (h0 : n ≠ []) (h1 : m ≠ []) :
    matchPrecision ('(' :: (n ++ ',' :: (m ++ ')' :: r))) = some (n.length + m.length + 3) := by
  have hd : digitsLen (n ++ ',' :: (m ++ ')' :: r)) = n.length := by
    rw [digitsLen_append n _ hn]
    simp [digitsLen]
  have hd2 : digitsLen (m ++ ')' :: r) = m.length := by
    rw [digitsLen_append m _ hm]
    simp [digitsLen]
  have hpos : 1 ≤ n.length := List.length_pos.mpr h0
  have hpos2 : 1 ≤ m.length := List.length_pos.mpr h1
  simp [matchPrecision, hd, hd2, hpos, hpos2]

/-- A type name without `(` stays as it is. -/
theorem removeSizes_plain (k : String) (hk : ∀ c ∈ k.data, c ≠ '(') : removeSizes k = k := by
  unfold removeSizes
  rw [removeMatches_plain _ matchSize_ne _ hk, removeMatches_plain _ matchPrecision_ne _ hk]

/-- A size `(n)` behind a type name without `(` is removed. -/
theorem removeSizes_size (k n : String) (hk : ∀ c ∈ k.data, c ≠ '(')
    (hn : ∀ c ∈ n.data, c.isDigit = true) (h0 : n ≠ "") :
    removeSizes (k ++ "(" ++ n ++ ")") = k := by
  have hdata : (k ++ "(" ++ n ++ ")").data = k.data ++ '(' :: (n.data ++ ')' :: []) := by
    simp [String.data_append]
  have hne : n.data ≠ [] := fun h => h0 (String.ext h)
  unfold removeSizes
  rw [hdata, removeMatches_keep _ matchSize_ne _ _ hk]
  have h1 : removeMatches matchSize 0 ('(' :: (n.data ++ ')' :: [])) = [] := by
    have hdrop : List.drop (n.data.length + 2 - 1) (n.data ++ ')' :: []) = [] := by
      apply List.drop_eq_nil_of_le
      simp
    rw [removeMatches, matchSize_hit _ _ hn hne]
    show removeMatches matchSize (n.data.length + 2 - 1) (n.data ++ ')' :: []) = []
    rw [removeMatches_drop, hdrop]
    rfl
  rw [h1, List.append_nil, removeMatches_plain _ matchPrecision_ne _ hk]

/-- A precision `(n,m)` behind a type name without `(` is removed. -/
theorem removeSizes_precision (k n m : String) (hk : ∀ c ∈ k.data, c ≠ '(')
    (hn : ∀ c ∈ n.data, c.isDigit = true) (hm : ∀ c ∈ m.data, c.isDigit = true)
    (h0 : n ≠ "") (h1 : m ≠ "") :
    removeSizes (k ++ "(" ++ n ++ "," ++ m ++ ")") = k := by
  have hdata : (k ++ "(" ++ n ++ "," ++ m ++ ")").data =
      k.data ++ '(' :: (n.data ++ ',' :: (m.data ++ ')' :: [])) := by
    simp [String.data_append]
  have hne : n.data ≠ [] := fun h => h0 (String.ext h)
  have hme : m.data ≠ [] := fun h => h1 (String.ext h)
  have htail : ∀ c ∈ n.data ++ ',' :: (m.data ++ ')' :: []), c ≠ '(' := by
    intro c hc
    simp only [List.mem_append, List.mem_cons, List.mem_singleton, List.not_mem_nil,
      or_false] at hc
    rcases hc with h | h | h | h
    · exact isDigit_ne_paren c (hn c h)
    · rw [h]; decide
    · exact isDigit_ne_paren c (hm c h)
    · rw [h]; decide
  unfold removeSizes
  rw [hdata, removeMatches_keep _ matchSize_ne _ _ hk]
  have h2 : removeMatches matchSize 0 ('(' :: (n.data ++ ',' :: (m.data ++ ')' :: []))) =
      '(' :: (n.data ++ ',' :: (m.data ++ ')' :: [])) := by
    rw [removeMatches, matchSize_comma _ _ hn, removeMatches_plain _ matchSize_ne _ htail]
  rw [h2, removeMatches_keep _ matchPrecision_ne _ _ hk]
  have h3 : removeMatches matchPrecision 0 ('(' :: (n.data ++ ',' :: (m.data ++ ')' :: []))) =
      [] := by
    have hdrop : List.drop (n.data.length + m.data.length + 3 - 1)
        (n.data ++ ',' :: (m.data ++ ')' :: [])) = [] := by
      apply List.drop_eq_nil_of_le
      simp
      omega
    rw [removeMatches, matchPrecision_hit _ _ _ hn hm hne hme]
    show removeMatches matchPrecision (n.data.length + m.data.length + 3 - 1)
      (n.data ++ ',' :: (m.data ++ ')' :: [])) = []
    rw [removeMatches_drop, hdrop]
    rfl
  rw [h3, List.append_nil]

theorem lookup_mem (typeMap : List (String × ColumnDefinition)) (k : String)
    (entry : ColumnDefinition) (h : typeMap.lookup k = some entry) : (k, entry) ∈ typeMap := by
  induction typeMap with
  | nil => simp at h
  | cons p l ih =>
    obtain ⟨a, b⟩ := p
    by_cases hka : k = a
    · subst hka
      simp only [List.lookup_cons, beq_self_eq_true, Option.some.injEq] at h
      subst h
      exact List.mem_cons_self _ _
    · have hb : (k == a) = false := by simpa using hka
      simp only [List.lookup_cons, hb] at h
      exact List.mem_cons_of_mem _ (ih h)

theorem postgres_keys_plain : ∀ p ∈ postgresTypeMap, ∀ c ∈ p.1.data, c ≠ '(' := by decide

theorem vertica_keys_plain : ∀ p ∈ verticaTypeMap, ∀ c ∈ p.1.data, c ≠ '(' := by decide

theorem buildTable_single (sizes : String → String)
    (typeMap : List (String × ColumnDefinition)) (database table : String) (r : Row)
    (k : String) (entry : ColumnDefinition) (hs : sizes r.data_type = k)
    (hk : typeMap.lookup k = some entry) :
    buildTable sizes typeMap database table [r] =
      .ok ⟨[⟨r.column_name, k, r.is_nullable, entry⟩], table⟩ := by
  simp [buildTable, scanRows, hs, hk]

/-- C2 (as stated, refuted). `MariaDB.Build` looks the scanned type up as it is: a row of
type `tinyint(1)` is not turned into `tinyint` and fails as an unrecognized type. -/
theorem mariadb_tinyint1_unrecognized :
    MariaDB.Build "shop" "flags" [⟨"active", "tinyint(1)", "NO"⟩] =
      .error "Unrecognized column type field: tinyint(1)" ∧
    ¬ ∃ t, MariaDB.Build "shop" "flags" [⟨"active", "tinyint(1)", "NO"⟩] = .ok t :=
  ⟨rfl, fun ⟨_, h⟩ =>
    Except.noConfusion ((rfl : MariaDB.Build "shop" "flags" [⟨"active", "tinyint(1)", "NO"⟩] =
      .error "Unrecognized column type field: tinyint(1)").symm.trans h)⟩

/-- C2 (amended). For the MariaDB provider, which looks the scanned type up without
removing sizes, a row whose type is `tinyint` resolves to the integer definition
(`int` / `null.Int` / `sql.NullInt64`), and a row whose type is `tinyint(1)` fails as
an unrecognized column type. -/
theorem mariadb_tinyint_resolves (database table name nullable : String) :
    MariaDB.Build database table [⟨name, "tinyint", nullable⟩] =
      .ok ⟨[⟨name, "tinyint", nullable, ⟨"int", "null.Int", "sql.NullInt64"⟩⟩], table⟩ ∧
    MariaDB.Build database table [⟨name, "tinyint(1)", nullable⟩] =
      .error "Unrecognized column type field: tinyint(1)" :=
  ⟨rfl, rfl⟩

/-- C3. For the PostgreSQL and the Vertica provider, for every key `k` of the
provider's map and all non-empty strings `n`, `m` of decimal digits, a row of type
`k`, of type `k(n)` and of type `k(n,m)` resolves to the same column: its type is
`k` and its definition is the entry of the map for `k`. -/
theorem sized_type_resolves_as_key (d : Database) (hd : d = .PostgreSQL ∨ d = .Vertica)
    (k : String) (entry : ColumnDefinition) (hk : d.typeMap.lookup k = some entry)
    (n m : String) (hn : n ≠ "") (hm : m ≠ "")
    (hnd : ∀ c ∈ n.data, c.isDigit = true) (hmd : ∀ c ∈ m.data, c.isDigit = true)
    (database table name nullable : String) :
    d.Build database table [⟨name, k, nullable⟩] =
      .ok ⟨[⟨name, k, nullable, entry⟩], table⟩ ∧
    d.Build database table [⟨name, k ++ "(" ++ n ++ ")", nullable⟩] =
      .ok ⟨[⟨name, k, nullable, entry⟩], table⟩ ∧
    d.Build database table [⟨name, k ++ "(" ++ n ++ "," ++ m ++ ")", nullable⟩] =
      .ok ⟨[⟨name, k, nullable, entry⟩], table⟩ := by
  have hplain : ∀ c ∈ k.data, c ≠ '(' := by
    rcases hd with h | h
    · subst h
      exact postgres_keys_plain _ (lookup_mem _ _ _ hk)
    · subst h
      exact vertica_keys_plain _ (lookup_mem _ _ _ hk)
  have hnorm : d.normalize = removeSizes := by
    rcases hd with h | h <;> subst h <;> rfl
  rw [Database.Build_eq, hnorm]
  exact ⟨buildTable_single _ _ _ _ ⟨name, k, nullable⟩ k entry (removeSizes_plain k hplain) hk,
    buildTable_single _ _ _ _ ⟨name, _, nullable⟩ k entry
      (removeSizes_size k n hplain hnd hn) hk,
    buildTable_single _ _ _ _ ⟨name, _, nullable⟩ k entry
      (removeSizes_precision k n m hplain hnd hmd hn hm) hk⟩

theorem sized_type_resolves_as_key_witness :
    Database.PostgreSQL.Build "shop" "items" [⟨"price", "numeric", "YES"⟩] =
      .ok ⟨[⟨"price", "numeric", "YES", floatDef⟩], "items"⟩ ∧
    Database.PostgreSQL.Build "shop" "items" [⟨"price", "numeric" ++ "(" ++ "10" ++ ")", "YES"⟩] =
      .ok ⟨[⟨"price", "numeric", "YES", floatDef⟩], "items"⟩ ∧
    Database.PostgreSQL.Build "shop" "items"
        [⟨"price", "numeric" ++ "(" ++ "10" ++ "," ++ "2" ++ ")", "YES"⟩] =
      .ok ⟨[⟨"price", "numeric", "YES", floatDef⟩], "items"⟩ :=
  sized_type_resolves_as_key Database.PostgreSQL (Or.inl rfl) "numeric" floatDef rfl "10" "2"
    (by decide) (by decide) (by decide) (by decide) "shop" "items" "price" "YES"

/-- C6. `fieldType` selects one of the three spellings: for a column whose nullable
flag is none of the strings `YES`, `t`, `true` it returns `Definition.GoType` whatever
the mode; for a column whose flag is one of the three it returns
`Definition.GureguType` under the mode `guregu` and `Definition.SQLType` under the
mode `sql`. -/
theorem fieldType_selects (c : Column) (nullabletype : String) :
    (¬ (c.DatabaseNullable = "YES" ∨ c.DatabaseNullable = "t" ∨ c.DatabaseNullable = "true") →
      fieldType c nullabletype = c.Definition.GoType) ∧
    ((c.DatabaseNullable = "YES" ∨ c.DatabaseNullable = "t" ∨ c.DatabaseNullable = "true") →
      fieldType c "guregu" = c.Definition.GureguType ∧
      fieldType c "sql" = c.Definition.SQLType) ∧
    (fieldType c nullabletype = c.Definition.GoType ∨
      fieldType c nullabletype = c.Definition.GureguType ∨
      fieldType c nullabletype = c.Definition.SQLType) := by
  refine ⟨?_, ?_, ?_⟩
  · intro h
    simp [fieldType, h]
  · intro h
    constructor
    · simp [fieldType, h]
    · have hne : ("sql" : String) ≠ "guregu" := by decide
      simp [fieldType, h, hne]
  · unfold fieldType
    split_ifs <;> simp

theorem fieldType_selects_witness :
    fieldType ⟨"id", "integer", "NO", intDef⟩ "guregu" = intDef.GoType ∧
    fieldType ⟨"email", "character varying", "true", stringDef⟩ "guregu" =
      stringDef.GureguType ∧
    fieldType ⟨"email", "character varying", "true", stringDef⟩ "sql" = stringDef.SQLType :=
  ⟨(fieldType_selects ⟨"id", "integer", "NO", intDef⟩ "guregu").1 (by decide),
    (fieldType_selects ⟨"email", "character varying", "true", stringDef⟩ "").2.1
      (Or.inr (Or.inr rfl))⟩

theorem splitChars_ne_nil (sep : Char) (l : List Char) : splitChars sep l ≠ [] := by
  cases l with
  | nil => simp [splitChars]
  | cons c cs =>
    unfold splitChars
    split_ifs
    · simp
    · split <;> simp

theorem splitChars_cons_ne (sep c : Char) (cs : List Char) (h : c ≠ sep) :
    ∃ w ws, splitChars sep cs = w :: ws ∧ splitChars sep (c :: cs) = (c :: w) :: ws := by
  cases hs : splitChars sep cs with
  | nil => exact absurd hs (splitChars_ne_nil sep cs)
  | cons w ws =>
    refine ⟨w, ws, rfl, ?_⟩
    rw [splitChars, if_neg h, hs]

theorem splitChars_cons_eq (sep : Char) (cs : List Char) :
    splitChars sep (sep :: cs) = [] :: splitChars sep cs := by
  rw [splitChars, if_pos rfl]

/-- No piece holds the separator. -/
theorem splitChars_free (sep : Char) (l : List Char) : ∀ w ∈ splitChars sep l, sep ∉ w := by
  induction l with
  | nil => intro w hw; simp [splitChars] at hw; simp [hw]
  | cons c cs ih =>
    intro w hw
    by_cases h : c = sep
    · subst h
      rw [splitChars_cons_eq] at hw
      rcases List.mem_cons.mp hw with h1 | h1
      · simp [h1]
      · exact ih w h1
    · obtain ⟨w0, ws, h1, h2⟩ := splitChars_cons_ne sep c cs h
      rw [h2] at hw
      rw [h1] at ih
      rcases List.mem_cons.mp hw with h3 | h3
      · subst h3
        intro hmem
        rcases List.mem_cons.mp hmem with h4 | h4
        · exact h h4.symm
        · exact ih w0 (List.mem_cons_self _ _) h4
      · exact ih w (List.mem_cons_of_mem _ h3)

theorem intercalate_cons_cons (sep : List Char) (c : Char) (w : List Char)
    (ws : List (List Char)) :
    sep.intercalate ((c :: w) :: ws) = c :: sep.intercalate (w :: ws) := by
  cases ws <;> simp [List.intercalate, List.intersperse]

theorem intercalate_nil_cons (sep : List Char) (ws : List (List Char)) (h : ws ≠ []) :
    sep.intercalate ([] :: ws) = sep ++ sep.intercalate ws := by
  cases ws with
  | nil => exact absurd rfl h
  | cons w ws => simp [List.intercalate, List.intersperse]

/-- The pieces, put together with the separator between them, give the text back. -/
theorem splitChars_intercalate (sep : Char) (l : List Char) :
    [sep].intercalate (splitChars sep l) = l := by
  induction l with
  | nil => simp [splitChars, List.intercalate, List.intersperse]
  | cons c cs ih =>
    by_cases h : c = sep
    · subst h
      rw [splitChars_cons_eq, intercalate_nil_cons _ _ (splitChars_ne_nil _ _), ih]
      rfl
    · obtain ⟨w0, ws, h1, h2⟩ := splitChars_cons_ne sep c cs h
      rw [h2, intercalate_cons_cons, ← h1, ih]

/-- The pieces, put together without the separator, are the text without it. -/
theorem splitChars_join (sep : Char) (l : List Char) :
    (splitChars sep l).flatten = l.filter (fun c => c ≠ sep) := by
  induction l with
  | nil => simp [splitChars]
  | cons c cs ih =>
    by_cases h : c = sep
    · subst h
      rw [splitChars_cons_eq]
      simp [ih]
    · obtain ⟨w0, ws, h1, h2⟩ := splitChars_cons_ne sep c cs h
      rw [h2]
      rw [h1] at ih
      simp only [List.flatten_cons] at ih ⊢
      rw [List.filter_cons_of_pos (by simpa using h), List.cons_append, ih]

theorem appendWord_false (lib : GoLib) (w : List Char) :
    ∀ runes, appendWord lib false runes w = runes ++ w := by
  induction w with
  | nil => intro runes; simp [appendWord]
  | cons c w ih =>
    intro runes
    rw [appendWord, ih]
    simp

theorem appendWord_true (lib : GoLib) (runes w : List Char) :
    appendWord lib true runes w = runes ++ ((w.take 1).map lib.ToUpper ++ w.drop 1) := by
  cases w with
  | nil => simp [appendWord]
  | cons c w =>
    rw [appendWord, appendWord_false]
    simp

theorem foldl_appendWord (lib : GoLib) (words : List (List Char)) :
    ∀ runes, (words.map String.mk).foldl (fun runes w => appendWord lib true runes w.data) runes =
      runes ++ (words.map (fun w => (w.take 1).map lib.ToUpper ++ w.drop 1)).flatten := by
  induction words with
  | nil => intro runes; simp
  | cons w words ih =>
    intro runes
    simp only [List.map_cons, List.foldl_cons, List.flatten_cons]
    rw [ih, appendWord_true, List.append_assoc]

theorem structName_data (lib : GoLib) (tablename : String) :
    (structName lib tablename).data =
      ((splitChars '_' tablename.data).map
        (fun w => (w.take 1).map lib.ToUpper ++ w.drop 1)).flatten := by
  unfold structName Split
  rw [foldl_appendWord]
  simp

theorem asciiLib_upper_ne_underscore (c : Char) (h : c ≠ '_') : asciiLib.ToUpper c ≠ '_' := by
  show Char.toUpper c ≠ '_'
  unfold Char.toUpper
  simp only []
  split_ifs with hr
  · obtain ⟨h1, h2⟩ := hr
    have h3 : c.toNat - 32 < 128 := by omega
    intro heq
    have h4 := congrArg Char.toNat heq
    have h5 : (Char.ofNat (c.toNat - 32)).toNat = c.toNat - 32 := by
      generalize c.toNat - 32 = k at h3
      interval_cases k <;> rfl
    rw [h5] at h4
    have h6 : ('_' : Char).toNat = 95 := rfl
    omega
  · exact h

/-- C10. `structName` (and `fieldName` on a column of that name, which runs the same
loops) returns the text without its `_` characters and with the first character of
each piece between them upper-cased, every other character unchanged; when
`unicode.ToUpper` maps no character of the text other than `_` to `_`, as it does for
letters and digits, the result holds no `_`. -/
theorem structName_pascal (lib : GoLib) (s : String)
    (hup : ∀ c ∈ s.data, c ≠ '_' → lib.ToUpper c ≠ '_') :
    '_' ∉ (structName lib s).data ∧
    (∃ pieces : List (List Char),
      (∀ w ∈ pieces, '_' ∉ w) ∧ ['_'].intercalate pieces = s.data ∧
      pieces.flatten = s.data.filter (fun c => c ≠ '_') ∧
      (structName lib s).data =
        (pieces.map (fun w => (w.take 1).map lib.ToUpper ++ w.drop 1)).flatten) ∧
    (∀ col : Column, col.Name = s → fieldName lib col = structName lib s) := by
  have hfree := splitChars_free '_' s.data
  have hjoin := splitChars_join '_' s.data
  refine ⟨?_, ⟨splitChars '_' s.data, hfree, splitChars_intercalate _ _, hjoin,
    structName_data lib s⟩, ?_⟩
  · rw [structName_data]
    intro hmem
    obtain ⟨l, hl, hcl⟩ := List.mem_flatten.mp hmem
    obtain ⟨w, hw, rfl⟩ := List.mem_map.mp hl
    have hsub : ∀ x ∈ w, x ∈ s.data := by
      intro x hx
      have h1 : x ∈ (splitChars '_' s.data).flatten := List.mem_flatten.mpr ⟨w, hw, hx⟩
      rw [hjoin] at h1
      exact (List.mem_filter.mp h1).1
    rcases List.mem_append.mp hcl with h1 | h1
    · obtain ⟨x, hx, hxe⟩ := List.mem_map.mp h1
      have hxw : x ∈ w := List.mem_of_mem_take hx
      have hxne : x ≠ '_' := fun h => hfree w hw (h ▸ hxw)
      exact hup x (hsub x hxw) hxne hxe
    · exact hfree w hw (List.mem_of_mem_drop h1)
  · intro col hcol
    subst hcol
    rfl

theorem structName_pascal_witness :
    '_' ∉ (structName asciiLib "user_accounts").data ∧
    (∃ pieces : List (List Char),
      (∀ w ∈ pieces, '_' ∉ w) ∧ ['_'].intercalate pieces = "user_accounts".data ∧
      pieces.flatten = "user_accounts".data.filter (fun c => c ≠ '_') ∧
      (structName asciiLib "user_accounts").data =
        (pieces.map (fun w => (w.take 1).map asciiLib.ToUpper ++ w.drop 1)).flatten) ∧
    (∀ col : Column, col.Name = "user_accounts" →
      fieldName asciiLib col = structName asciiLib "user_accounts") :=
  structName_pascal asciiLib "user_accounts" (fun c _ h => asciiLib_upper_ne_underscore c h)

theorem foldl_append_join (f : Column → String) (cols : List Column) :
    ∀ buf : String, cols.foldl (fun buf column => buf ++ f column) buf =
      buf ++ String.join (cols.map f) := by
  induction cols with
  | nil => intro buf; simp [String.join]
  | cons col cols ih =>
    intro buf
    simp only [List.foldl_cons, List.map_cons]
    rw [ih, String.append_assoc]
    congr 1
    have h : String.join (f col :: cols.map f) = f col ++ String.join (cols.map f) := by
      simp only [String.join, List.foldl_cons]
      rw [String.empty_append]
      clear ih
      generalize f col = a
      generalize cols.map f = l
      induction l generalizing a with
      | nil => simp
      | cons b l ih2 =>
        simp only [List.foldl_cons]
        rw [ih2 (a ++ b), String.empty_append, ih2 b, String.append_assoc]
    rw [h]

theorem fieldLine_eq (lib : GoLib) (c : Context) (column : Column) :
    fieldLine lib c column =
      fieldName lib column ++ " \t " ++ fieldType column c.nullabletype ++
        (if c.tags ≠ "" then " \t `" ++ fieldTags lib column (Split c.tags ',') ++ "`\n"
         else " \t\n") := by
  unfold fieldLine
  split_ifs <;> simp [String.append_assoc]

theorem Generate_eq (lib : GoLib) (c : Context) (dbName : String) (t : Table) :
    Generate lib c dbName t =
      (if c.methods ≠ "" then
          (structMethods lib (structName lib t.Name) t.Name (Split c.methods ',')).map lib.Sprintf
        else some "").map
        (fun methods =>
          "// " ++ structName lib t.Name ++ " is the go struct representation of " ++ dbName
            ++ "." ++ t.Name ++ " \n type " ++ structName lib t.Name ++ " struct \x7b\n"
            ++ String.join (t.Columns.map (fun column =>
                fieldName lib column ++ " \t " ++ fieldType column c.nullabletype ++
                  (if c.tags ≠ "" then
                    " \t `" ++ fieldTags lib column (Split c.tags ',') ++ "`\n"
                   else " \t\n")))
            ++ "\n\x7d\n\n" ++ methods) := by
  unfold Generate
  simp only [foldl_append_join, fieldLine_eq]
  by_cases hm : c.methods = ""
  · rw [if_neg (not_not.mpr hm), if_neg (not_not.mpr hm)]
    simp only [Option.map_some', String.append_empty]
  · rw [if_pos hm, if_pos hm]
    cases structMethods lib (structName lib t.Name) t.Name (Split c.methods ',') <;> rfl

theorem generate_user_accounts (lib : GoLib) (dbName nullabletype : String)
    (hu : lib.ToUpper 'u' = 'U') (ha : lib.ToUpper 'a' = 'A')
    (hi : lib.ToUpper 'i' = 'I') (he : lib.ToUpper 'e' = 'E') :
    Generate lib ⟨"", nullabletype, ""⟩ dbName
        ⟨[⟨"id", "integer", "NO", intDef⟩, ⟨"email", "character varying", "YES", stringDef⟩],
          "user_accounts"⟩ =
      some ("// UserAccounts is the go struct representation of " ++ dbName ++
        ".user_accounts \n type UserAccounts struct \x7b\nId \t int \t\nEmail \t " ++
        fieldType ⟨"email", "character varying", "YES", stringDef⟩ nullabletype ++
        " \t\n\n\x7d\n\n") := by
  have h1 : structName lib "user_accounts" = "UserAccounts" := by
    have h : structName lib "user_accounts" = String.mk [lib.ToUpper 'u', 's', 'e', 'r',
        lib.ToUpper 'a', 'c', 'c', 'o', 'u', 'n', 't', 's'] := rfl
    rw [h, hu, ha]
  have h2 : fieldName lib ⟨"id", "integer", "NO", intDef⟩ = "Id" := by
    have h : fieldName lib ⟨"id", "integer", "NO", intDef⟩ = String.mk [lib.ToUpper 'i', 'd'] :=
      rfl
    rw [h, hi]
  have h3 : fieldName lib ⟨"email", "character varying", "YES", stringDef⟩ = "Email" := by
    have h : fieldName lib ⟨"email", "character varying", "YES", stringDef⟩ =
        String.mk [lib.ToUpper 'e', 'm', 'a', 'i', 'l'] := rfl
    rw [h, he]
  have h4 : fieldType ⟨"id", "integer", "NO", intDef⟩ nullabletype = "int" := by
    simp [fieldType, intDef]
  rw [Generate_eq]
  simp only [ne_eq, not_true_eq_false, if_false, Option.map_some', List.map_cons, List.map_nil,
    h1, h2, h3, h4, String.append_empty]
  congr 1
  apply String.ext
  simp [String.join, String.data_append]

/-- C7. The PostgreSQL provider, given the rows `(id, integer, NO)` and
`(email, character varying, YES)` for the table `user_accounts`, returns a table from
which `Generate`, under the nullable mode `guregu` and with no tags and no methods,
emits the declaration of the type `UserAccounts` with two field lines: `Id` of type
`int`, then `Email` of type `null.String`. -/
theorem user_accounts_guregu (lib : GoLib) (dbName : String)
    (hu : lib.ToUpper 'u' = 'U') (ha : lib.ToUpper 'a' = 'A')
    (hi : lib.ToUpper 'i' = 'I') (he : lib.ToUpper 'e' = 'E') :
    ∃ t, PostgreSQL.Build dbName "user_accounts"
        [⟨"id", "integer", "NO"⟩, ⟨"email", "character varying", "YES"⟩] = .ok t ∧
      Generate lib ⟨"", "guregu", ""⟩ dbName t =
        some ("// UserAccounts is the go struct representation of " ++ dbName ++
          ".user_accounts \n type UserAccounts struct \x7b\nId \t int \t\nEmail \t null.String \t\n\n\x7d\n\n") := by
  refine ⟨⟨[⟨"id", "integer", "NO", intDef⟩, ⟨"email", "character varying", "YES", stringDef⟩],
    "user_accounts"⟩, rfl, ?_⟩
  rw [generate_user_accounts lib dbName "guregu" hu ha hi he]
  have h : fieldType ⟨"email", "character varying", "YES", stringDef⟩ "guregu" = "null.String" :=
    by decide
  rw [h]
  congr 1
  apply String.ext
  simp [String.data_append]

theorem user_accounts_guregu_witness :
    ∃ t, PostgreSQL.Build "shop" "user_accounts"
        [⟨"id", "integer", "NO"⟩, ⟨"email", "character varying", "YES"⟩] = .ok t ∧
      Generate asciiLib ⟨"", "guregu", ""⟩ "shop" t =
        some ("// UserAccounts is the go struct representation of " ++ "shop" ++
          ".user_accounts \n type UserAccounts struct \x7b\nId \t int \t\nEmail \t null.String \t\n\n\x7d\n\n") :=
  user_accounts_guregu asciiLib "shop" (by decide) (by decide) (by decide) (by decide)

/-- C9. For every table and all options, the output of `Generate` is the header
comment and the opening of the type with `structName` of the table name, then one
field line per column in the order of `Table.Columns`, then the closing of the type
(and behind it the text of the methods when methods are asked for); the line of a
column begins with its `fieldName`, followed by its `fieldType` under the requested
nullable mode, and carries a back-quoted tag string exactly when the tags option is
not empty. -/
theorem generate_layout (lib : GoLib) (c : Context) (dbName : String) (t : Table) :
    Generate lib c dbName t =
      (if c.methods ≠ "" then
          (structMethods lib (structName lib t.Name) t.Name (Split c.methods ',')).map lib.Sprintf
        else some "").map
        (fun methods =>
          "// " ++ structName lib t.Name ++ " is the go struct representation of " ++ dbName
            ++ "." ++ t.Name ++ " \n type " ++ structName lib t.Name ++ " struct \x7b\n"
            ++ String.join (t.Columns.map (fun column =>
                fieldName lib column ++ " \t " ++ fieldType column c.nullabletype ++
                  (if c.tags ≠ "" then
                    " \t `" ++ fieldTags lib column (Split c.tags ',') ++ "`\n"
                   else " \t\n")))
            ++ "\n\x7d\n\n" ++ methods) ∧
    (c.methods = "" →
      Generate lib c dbName t =
        some ("// " ++ structName lib t.Name ++ " is the go struct representation of " ++ dbName
            ++ "." ++ t.Name ++ " \n type " ++ structName lib t.Name ++ " struct \x7b\n"
            ++ String.join (t.Columns.map (fun column =>
                fieldName lib column ++ " \t " ++ fieldType column c.nullabletype ++
                  (if c.tags ≠ "" then
                    " \t `" ++ fieldTags lib column (Split c.tags ',') ++ "`\n"
                   else " \t\n")))
            ++ "\n\x7d\n\n")) := by
  refine ⟨Generate_eq lib c dbName t, ?_⟩
  intro hm
  rw [Generate_eq, if_neg (not_not.mpr hm)]
  simp only [Option.map_some', String.append_empty]

theorem generate_layout_witness :
    Generate asciiLib ⟨"gorm", "sql", ""⟩ "shop" ⟨[⟨"id", "int", "NO", intDef⟩], "users"⟩ =
      some ("// " ++ structName asciiLib "users" ++ " is the go struct representation of "
          ++ "shop" ++ "." ++ "users" ++ " \n type " ++ structName asciiLib "users"
          ++ " struct \x7b\n"
          ++ String.join ([(⟨"id", "int", "NO", intDef⟩ : Column)].map (fun column =>
              fieldName asciiLib column ++ " \t " ++ fieldType column "sql" ++
                (if ("gorm" : String) ≠ "" then
                  " \t `" ++ fieldTags asciiLib column (Split "gorm" ',') ++ "`\n"
                 else " \t\n")))
          ++ "\n\x7d\n\n") :=
  (generate_layout asciiLib ⟨"gorm", "sql", ""⟩ "shop" ⟨[⟨"id", "int", "NO", intDef⟩], "users"⟩).2
    rfl

theorem fieldType_guregu (c : Column) :
    fieldType c "guregu" =
      if c.DatabaseNullable = "YES" ∨ c.DatabaseNullable = "t" ∨ c.DatabaseNullable = "true"
      then c.Definition.GureguType else c.Definition.GoType := by
  simp [fieldType]

theorem fieldType_sql (c : Column) :
    fieldType c "sql" =
      if c.DatabaseNullable = "YES" ∨ c.DatabaseNullable = "t" ∨ c.DatabaseNullable = "true"
      then c.Definition.SQLType else c.Definition.GoType := by
  have hne : ("sql" : String) ≠ "guregu" := by decide
  simp [fieldType, hne]

/-- C8. For every table and fixed tags and methods options, the outputs of `Generate`
under the modes `guregu` and `sql` are the same text (same header, same field names
in the same order, same tags, same methods) except for the type spelling on the
lines of the nullable columns, which is `Definition.GureguType` under `guregu` and
`Definition.SQLType` under `sql`; for the table `user_accounts` of the scenario the two
outputs differ only in the type of `Email`, `null.String` against `sql.NullString`. -/
theorem generate_modes_differ_in_spelling (lib : GoLib) (tags methods dbName : String)
    (t : Table) :
    Generate lib ⟨tags, "guregu", methods⟩ dbName t =
      emittedWith lib tags methods dbName t (fun column =>
        if column.DatabaseNullable = "YES" ∨ column.DatabaseNullable = "t" ∨
            column.DatabaseNullable = "true"
        then column.Definition.GureguType else column.Definition.GoType) ∧
    Generate lib ⟨tags, "sql", methods⟩ dbName t =
      emittedWith lib tags methods dbName t (fun column =>
        if column.DatabaseNullable = "YES" ∨ column.DatabaseNullable = "t" ∨
            column.DatabaseNullable = "true"
        then column.Definition.SQLType else column.Definition.GoType) ∧
    (lib.ToUpper 'u' = 'U' → lib.ToUpper 'a' = 'A' → lib.ToUpper 'i' = 'I' →
      lib.ToUpper 'e' = 'E' →
      ∃ ua, PostgreSQL.Build dbName "user_accounts"
        [⟨"id", "integer", "NO"⟩, ⟨"email", "character varying", "YES"⟩] = .ok ua ∧
      Generate lib ⟨"", "guregu", ""⟩ dbName ua =
        some ("// UserAccounts is the go struct representation of " ++ dbName ++
          ".user_accounts \n type UserAccounts struct \x7b\nId \t int \t\nEmail \t " ++
          "null.String" ++ " \t\n\n\x7d\n\n") ∧
      Generate lib ⟨"", "sql", ""⟩ dbName ua =
        some ("// UserAccounts is the go struct representation of " ++ dbName ++
          ".user_accounts \n type UserAccounts struct \x7b\nId \t int \t\nEmail \t " ++
          "sql.NullString" ++ " \t\n\n\x7d\n\n")) := by
  refine ⟨?_, ?_, ?_⟩
  · rw [Generate_eq]
    unfold emittedWith
    simp only [fieldType_guregu]
  · rw [Generate_eq]
    unfold emittedWith
    simp only [fieldType_sql]
  · intro hu ha hi he
    refine ⟨⟨[⟨"id", "integer", "NO", intDef⟩,
      ⟨"email", "character varying", "YES", stringDef⟩], "user_accounts"⟩, rfl, ?_, ?_⟩
    · rw [generate_user_accounts lib dbName "guregu" hu ha hi he]
      rfl
    · rw [generate_user_accounts lib dbName "sql" hu ha hi he]
      rfl

theorem generate_modes_differ_in_spelling_witness :
    ∃ ua, PostgreSQL.Build "shop" "user_accounts"
        [⟨"id", "integer", "NO"⟩, ⟨"email", "character varying", "YES"⟩] = .ok ua ∧
      Generate asciiLib ⟨"", "guregu", ""⟩ "shop" ua =
        some ("// UserAccounts is the go struct representation of " ++ "shop" ++
          ".user_accounts \n type UserAccounts struct \x7b\nId \t int \t\nEmail \t " ++
          "null.String" ++ " \t\n\n\x7d\n\n") ∧
      Generate asciiLib ⟨"", "sql", ""⟩ "shop" ua =
        some ("// UserAccounts is the go struct representation of " ++ "shop" ++
          ".user_accounts \n type UserAccounts struct \x7b\nId \t int \t\nEmail \t " ++
          "sql.NullString" ++ " \t\n\n\x7d\n\n") :=
  (generate_modes_differ_in_spelling asciiLib "" "" "shop" ⟨[], "user_accounts"⟩).2.2
    (by decide) (by decide) (by decide) (by decide)

/-! ## The order of the keys -/

theorem char_eq_of_toNat (a b : Char) (h1 : ¬ a.toNat < b.toNat) (h2 : ¬ b.toNat < a.toNat) :
    a = b := by
  have h : a.toNat = b.toNat := by omega
  apply Char.ext
  apply UInt32.ext
  exact h

theorem stringLess_irrefl (a : List Char) : stringLess a a = false := by
  induction a with
  | nil => rfl
  | cons c cs ih => simp [stringLess, ih]

theorem stringLess_trichotomy (a : List Char) :
    ∀ b, stringLess a b = false → stringLess b a = false → a = b := by
  induction a with
  | nil =>
    intro b h1 _
    cases b with
    | nil => rfl
    | cons d ds => simp [stringLess] at h1
  | cons c cs ih =>
    intro b h1 h2
    cases b with
    | nil => simp [stringLess] at h2
    | cons d ds =>
      simp only [stringLess] at h1 h2
      by_cases hcd : c.toNat < d.toNat
      · simp [hcd] at h1
      · by_cases hdc : d.toNat < c.toNat
        · simp [hdc] at h2
        · simp only [hcd, hdc, if_false] at h1 h2
          rw [char_eq_of_toNat c d hcd hdc, ih ds h1 h2]

theorem stringLess_asymm (a : List Char) :
    ∀ b, stringLess a b = true → stringLess b a = false := by
  induction a with
  | nil =>
    intro b _
    cases b <;> rfl
  | cons c cs ih =>
    intro b h
    cases b with
    | nil => simp [stringLess] at h
    | cons d ds =>
      simp only [stringLess] at h ⊢
      by_cases hcd : c.toNat < d.toNat
      · have : ¬ d.toNat < c.toNat := by omega
        simp [this, hcd]
      · by_cases hdc : d.toNat < c.toNat
        · simp [hcd, hdc] at h
        · simp only [hcd, hdc, if_false] at h ⊢
          exact ih ds h

theorem stringLess_trans (a : List Char) :
    ∀ b c, stringLess a b = true → stringLess b c = true → stringLess a c = true := by
  induction a with
  | nil =>
    intro b c h1 h2
    cases c with
    | nil => cases b <;> simp [stringLess] at h2
    | cons e es => rfl
  | cons x xs ih =>
    intro b c h1 h2
    cases b with
    | nil => simp [stringLess] at h1
    | cons y ys =>
      cases c with
      | nil => simp [stringLess] at h2
      | cons z zs =>
        simp only [stringLess] at h1 h2 ⊢
        by_cases hxy : x.toNat < y.toNat
        · by_cases hyz : y.toNat < z.toNat
          · have : x.toNat < z.toNat := by omega
            simp [this]
          · by_cases hzy : z.toNat < y.toNat
            · simp [hyz, hzy] at h2
            · have : x.toNat < z.toNat := by omega
              simp [this]
        · by_cases hyx : y.toNat < x.toNat
          · simp [hxy, hyx] at h1
          · simp only [hxy, hyx, if_false] at h1
            by_cases hyz : y.toNat < z.toNat
            · have : x.toNat < z.toNat := by omega
              simp [this]
            · by_cases hzy : z.toNat < y.toNat
              · simp [hyz, hzy] at h2
              · simp only [hyz, hzy, if_false] at h2
                have h3 : ¬ x.toNat < z.toNat := by omega
                have h4 : ¬ z.toNat < x.toNat := by omega
                simp only [h3, h4, if_false]
                exact ih ys zs h1 h2

theorem tags_sort_perm (tags : List Tag) : (Tags.Sort tags).Perm tags :=
  List.perm_insertionSort _ tags

theorem tags_sort_sorted (tags : List Tag) :
    List.Sorted (fun a b : Tag => stringLess b.Key.data a.Key.data = false) (Tags.Sort tags) := by
  haveI : IsTotal Tag (fun a b : Tag => stringLess b.Key.data a.Key.data = false) :=
    ⟨fun a b => by
      cases h : stringLess b.Key.data a.Key.data with
      | false => exact Or.inl rfl
      | true => exact Or.inr (stringLess_asymm _ _ h)⟩
  haveI : IsTrans Tag (fun a b : Tag => stringLess b.Key.data a.Key.data = false) :=
    ⟨fun a b c hab hbc => by
      cases hca : stringLess c.Key.data a.Key.data with
      | false => rfl
      | true =>
        cases hab2 : stringLess a.Key.data b.Key.data with
        | true =>
          have := stringLess_trans _ _ _ hca hab2
          rw [hbc] at this
          exact absurd this (by simp)
        | false =>
          have heq := stringLess_trichotomy _ _ hab2 hab
          rw [heq] at hca
          rw [hbc] at hca
          exact absurd hca (by simp)⟩
  exact List.sorted_insertionSort _ tags

/-- Sorting tags with pairwise distinct keys puts the keys in strictly ascending order. -/
theorem tags_sort_strict (tags : List Tag) (hnd : (tags.map Tag.Key).Nodup) :
    (Tags.Sort tags).Pairwise (fun a b => stringLess a.Key.data b.Key.data = true) := by
  have hs : (Tags.Sort tags).Pairwise
      (fun a b : Tag => stringLess b.Key.data a.Key.data = false) := tags_sort_sorted tags
  have hnd2 : ((Tags.Sort tags).map Tag.Key).Nodup :=
    ((tags_sort_perm tags).map Tag.Key).nodup_iff.mpr hnd
  have hne : (Tags.Sort tags).Pairwise (fun a b => a.Key ≠ b.Key) := by
    have := List.pairwise_map.mp hnd2
    exact this
  refine (hs.and hne).imp ?_
  rintro a b ⟨h1, h2⟩
  cases h : stringLess a.Key.data b.Key.data with
  | true => rfl
  | false => exact absurd (String.ext (stringLess_trichotomy _ _ h h1)) h2

theorem optionTag_cases (lib : GoLib) (c : Column) (o : String) :
    (o = "json" ∧ optionTag lib c o = JSONTags lib c) ∨
    (o = "xml" ∧ optionTag lib c o = XMLTags lib c) ∨
    (o = "gorm" ∧ optionTag lib c o = GormTags c) ∨
    (o = "sqlx" ∧ optionTag lib c o = SQLXTags c) ∨
    (o = "csv" ∧ optionTag lib c o = CSVTags lib c) ∨
    (o ∉ ["json", "xml", "gorm", "sqlx", "csv"] ∧ optionTag lib c o = ⟨"", "", []⟩) := by
  unfold optionTag
  by_cases h1 : o = "json"
  · exact Or.inl ⟨h1, by simp [h1]⟩
  by_cases h2 : o = "xml"
  · exact Or.inr (Or.inl ⟨h2, by simp [h2]⟩)
  by_cases h3 : o = "gorm"
  · exact Or.inr (Or.inr (Or.inl ⟨h3, by simp [h3]⟩))
  by_cases h4 : o = "sqlx"
  · exact Or.inr (Or.inr (Or.inr (Or.inl ⟨h4, by simp [h4]⟩)))
  by_cases h5 : o = "csv"
  · exact Or.inr (Or.inr (Or.inr (Or.inr (Or.inl ⟨h5, by simp [h5]⟩))))
  · exact Or.inr (Or.inr (Or.inr (Or.inr (Or.inr ⟨by simp [h1, h2, h3, h4, h5],
      by simp [h1, h2, h3, h4, h5]⟩))))

/-- Two options whose tags have the same key have the same tag. -/
theorem optionTag_key_inj (lib : GoLib) (c : Column) (o1 o2 : String)
    (hk : (optionTag lib c o1).Key = (optionTag lib c o2).Key) :
    optionTag lib c o1 = optionTag lib c o2 := by
  rcases optionTag_cases lib c o1 with ⟨_, h1⟩ | ⟨_, h1⟩ | ⟨_, h1⟩ | ⟨_, h1⟩ | ⟨_, h1⟩ | ⟨_, h1⟩ <;>
  rcases optionTag_cases lib c o2 with ⟨_, h2⟩ | ⟨_, h2⟩ | ⟨_, h2⟩ | ⟨_, h2⟩ | ⟨_, h2⟩ | ⟨_, h2⟩ <;>
  rw [h1, h2] at hk ⊢ <;>
  first
    | rfl
    | exact absurd hk (by simp [JSONTags, XMLTags, GormTags, SQLXTags, CSVTags])

/-- What `Set` does with the tag of an option when every tag held is the tag of some
option: nothing if the tag has no key or is held already, else the tag is appended. -/
theorem tags_set_optionTag (lib : GoLib) (c : Column) (tags : List Tag) (o : String)
    (hall : ∀ t ∈ tags, ∃ o2, t = optionTag lib c o2) :
    Tags.Set tags (optionTag lib c o) =
      if (optionTag lib c o).Key = "" ∨ optionTag lib c o ∈ tags then tags
      else tags ++ [optionTag lib c o] := by
  unfold Tags.Set
  by_cases hk : (optionTag lib c o).Key = ""
  · simp [hk]
  · rw [if_neg hk]
    by_cases hany : tags.any (fun tg => decide (tg.Key = (optionTag lib c o).Key)) = true
    · rw [if_pos hany]
      obtain ⟨tg, htg, hkey⟩ := List.any_eq_true.mp hany
      have hkey2 : tg.Key = (optionTag lib c o).Key := by simpa using hkey
      obtain ⟨o2, ho2⟩ := hall tg htg
      have hmem : optionTag lib c o ∈ tags := by
        have : tg = optionTag lib c o := by
          rw [ho2] at hkey2 ⊢
          exact optionTag_key_inj lib c o2 o hkey2
        rw [← this]
        exact htg
      rw [if_pos (Or.inr hmem)]
      have hid : ∀ t ∈ tags,
          (if t.Key = (optionTag lib c o).Key then optionTag lib c o else t) = t := by
        intro t ht
        split_ifs with h
        · obtain ⟨o3, ho3⟩ := hall t ht
          rw [ho3] at h ⊢
          exact (optionTag_key_inj lib c o3 o h).symm
        · rfl
      calc tags.map (fun tg => if tg.Key = (optionTag lib c o).Key then optionTag lib c o else tg)
          = tags.map id := List.map_congr_left hid
        _ = tags := List.map_id tags
    · rw [if_neg hany]
      have hnot : optionTag lib c o ∉ tags := by
        intro hmem
        apply hany
        exact List.any_eq_true.mpr ⟨_, hmem, by simp⟩
      rw [if_neg (by simp [hk, hnot])]

/-- The tags held after the loop of `fieldTags`: those held before and, for every
option that has a tag with a key, that tag; the keys stay pairwise distinct. -/
theorem tags_fold (lib : GoLib) (c : Column) (options : List String) :
    ∀ tags : List Tag, (∀ t ∈ tags, ∃ o2, t = optionTag lib c o2) →
      (tags.map Tag.Key).Nodup →
      (∀ t ∈ options.foldl (fun ts o => Tags.Set ts (optionTag lib c o)) tags,
        ∃ o2, t = optionTag lib c o2) ∧
      ((options.foldl (fun ts o => Tags.Set ts (optionTag lib c o)) tags).map Tag.Key).Nodup ∧
      ∀ t, t ∈ options.foldl (fun ts o => Tags.Set ts (optionTag lib c o)) tags ↔
        t ∈ tags ∨ (t.Key ≠ "" ∧ ∃ o ∈ options, t = optionTag lib c o) := by
  induction options with
  | nil => intro tags hall hnd; simp [hall, hnd]; exact hall
  | cons o options ih =>
    intro tags hall hnd
    simp only [List.foldl_cons]
    rw [tags_set_optionTag lib c tags o hall]
    by_cases hcase : (optionTag lib c o).Key = "" ∨ optionTag lib c o ∈ tags
    · rw [if_pos hcase]
      obtain ⟨h1, h2, h3⟩ := ih tags hall hnd
      refine ⟨h1, h2, ?_⟩
      intro t
      rw [h3 t]
      constructor
      · rintro (h | ⟨hk, o2, ho2, rfl⟩)
        · exact Or.inl h
        · exact Or.inr ⟨hk, o2, List.mem_cons_of_mem _ ho2, rfl⟩
      · rintro (h | ⟨hk, o2, ho2, rfl⟩)
        · exact Or.inl h
        · rcases List.mem_cons.mp ho2 with h4 | h4
          · subst h4
            rcases hcase with h5 | h5
            · exact absurd h5 hk
            · exact Or.inl h5
          · exact Or.inr ⟨hk, o2, h4, rfl⟩
    · rw [if_neg hcase]
      have hk : (optionTag lib c o).Key ≠ "" := fun h => hcase (Or.inl h)
      have hnot : optionTag lib c o ∉ tags := fun h => hcase (Or.inr h)
      have hall2 : ∀ t ∈ tags ++ [optionTag lib c o], ∃ o2, t = optionTag lib c o2 := by
        intro t ht
        rcases List.mem_append.mp ht with h | h
        · exact hall t h
        · exact ⟨o, by simpa using h⟩
      have hnd2 : ((tags ++ [optionTag lib c o]).map Tag.Key).Nodup := by
        rw [List.map_append, List.map_singleton]
        refine List.Nodup.append hnd (List.nodup_singleton _) ?_
        intro k hk1 hk2
        rw [List.mem_singleton] at hk2
        obtain ⟨t, ht, htk⟩ := List.mem_map.mp hk1
        obtain ⟨o3, ho3⟩ := hall t ht
        apply hnot
        have : t = optionTag lib c o := by
          rw [ho3] at htk ⊢
          exact optionTag_key_inj lib c o3 o (htk.trans hk2)
        rw [← this]
        exact ht
      obtain ⟨h1, h2, h3⟩ := ih _ hall2 hnd2
      refine ⟨h1, h2, ?_⟩
      intro t
      rw [h3 t]
      constructor
      · rintro (h | ⟨hk2, o2, ho2, rfl⟩)
        · rcases List.mem_append.mp h with h4 | h4
          · exact Or.inl h4
          · rw [List.mem_singleton] at h4
            subst h4
            exact Or.inr ⟨hk, o, List.mem_cons_self _ _, rfl⟩
        · exact Or.inr ⟨hk2, o2, List.mem_cons_of_mem _ ho2, rfl⟩
      · rintro (h | ⟨hk2, o2, ho2, rfl⟩)
        · exact Or.inl (List.mem_append_left _ h)
        · rcases List.mem_cons.mp ho2 with h4 | h4
          · subst h4
            exact Or.inl (List.mem_append_right _ (List.mem_singleton.mpr rfl))
          · exact Or.inr ⟨hk2, o2, h4, rfl⟩

/-- The tags `fieldTags` prints: sorted strictly by key, and exactly the tags with a
key that the options ask for. -/
theorem fieldTags_tags (lib : GoLib) (c : Column) (options : List String) :
    (Tags.Sort (options.foldl (fun ts o => Tags.Set ts (optionTag lib c o)) [])).Pairwise
      (fun a b => stringLess a.Key.data b.Key.data = true) ∧
    ∀ t, t ∈ Tags.Sort (options.foldl (fun ts o => Tags.Set ts (optionTag lib c o)) []) ↔
      (t.Key ≠ "" ∧ ∃ o ∈ options, t = optionTag lib c o) := by
  obtain ⟨_, h2, h3⟩ := tags_fold lib c options [] (by simp) (by simp)
  refine ⟨tags_sort_strict _ h2, ?_⟩
  intro t
  rw [(tags_sort_perm _).mem_iff, h3 t]
  simp

theorem strict_pairwise_nodup (tags : List Tag)
    (h : tags.Pairwise (fun a b => stringLess a.Key.data b.Key.data = true)) :
    (tags.map Tag.Key).Nodup := by
  rw [List.Nodup, List.pairwise_map]
  refine h.imp ?_
  intro a b hab heq
  rw [heq, stringLess_irrefl] at hab
  exact absurd hab (by simp)

/-- C11. For every column and every list of options, the entries of the string that
`fieldTags` returns stand in strictly ascending order of their keys, so that no key
occurs twice; they are the tags of the options that have a tag with a key. -/
theorem fieldTags_strictly_ascending (lib : GoLib) (c : Column) (options : List String) :
    ∃ entries : List Tag,
      fieldTags lib c options =
        " ".intercalate (entries.map (fun t => t.Key ++ ":" ++ lib.Quote t.Value)) ∧
      entries.Pairwise (fun a b => stringLess a.Key.data b.Key.data = true) ∧
      (entries.map Tag.Key).Nodup ∧
      ∀ t, t ∈ entries ↔ (t.Key ≠ "" ∧ ∃ o ∈ options, t = optionTag lib c o) := by
  obtain ⟨h1, h2⟩ := fieldTags_tags lib c options
  exact ⟨_, rfl, h1, strict_pairwise_nodup _ h1, h2⟩

/-- C12. For a fixed column the string `fieldTags` returns depends only on the set of
options asked for: two lists with the same members, in any order and with any
repetitions, give the same string. -/
theorem fieldTags_depends_on_set (lib : GoLib) (c : Column) (options1 options2 : List String)
    (h : ∀ o, o ∈ options1 ↔ o ∈ options2) :
    fieldTags lib c options1 = fieldTags lib c options2 := by
  obtain ⟨hs1, hm1⟩ := fieldTags_tags lib c options1
  obtain ⟨hs2, hm2⟩ := fieldTags_tags lib c options2
  have hperm : (Tags.Sort (options1.foldl (fun ts o => Tags.Set ts (optionTag lib c o)) [])).Perm
      (Tags.Sort (options2.foldl (fun ts o => Tags.Set ts (optionTag lib c o)) [])) := by
    refine (List.perm_ext_iff_of_nodup ?_ ?_).mpr ?_
    · exact List.Nodup.of_map _ (strict_pairwise_nodup _ hs1)
    · exact List.Nodup.of_map _ (strict_pairwise_nodup _ hs2)
    · intro t
      rw [hm1 t, hm2 t]
      constructor
      · rintro ⟨hk, o, ho, rfl⟩
        exact ⟨hk, o, (h o).mp ho, rfl⟩
      · rintro ⟨hk, o, ho, rfl⟩
        exact ⟨hk, o, (h o).mpr ho, rfl⟩
  haveI : IsAntisymm Tag (fun a b : Tag => stringLess a.Key.data b.Key.data = true) :=
    ⟨fun a b hab hba => by
      rw [stringLess_asymm _ _ hab] at hba
      exact absurd hba (by simp)⟩
  have heq := List.eq_of_perm_of_sorted hperm hs1 hs2
  unfold fieldTags
  simp only [heq]

theorem fieldTags_depends_on_set_witness :
    fieldTags asciiLib ⟨"user_id", "int", "NO", intDef⟩ ["json", "gorm", "json"] =
      fieldTags asciiLib ⟨"user_id", "int", "NO", intDef⟩ ["gorm", "json"] :=
  fieldTags_depends_on_set asciiLib ⟨"user_id", "int", "NO", intDef⟩ ["json", "gorm", "json"]
    ["gorm", "json"] (fun o => by simp only [List.mem_cons, List.mem_singleton,
      List.not_mem_nil, or_false]; tauto)

theorem tags_fold_filter (lib : GoLib) (c : Column) (options : List String) :
    ∀ tags : List Tag,
      (options.filter (fun o => decide (o ∈ ["json", "xml", "gorm", "sqlx", "csv"]))).foldl
          (fun ts o => Tags.Set ts (optionTag lib c o)) tags =
        options.foldl (fun ts o => Tags.Set ts (optionTag lib c o)) tags := by
  induction options with
  | nil => intro tags; rfl
  | cons o options ih =>
    intro tags
    by_cases ho : o ∈ ["json", "xml", "gorm", "sqlx", "csv"]
    · rw [List.filter_cons_of_pos (by simpa using ho)]
      simp only [List.foldl_cons]
      exact ih _
    · rw [List.filter_cons_of_neg (by simpa using ho)]
      simp only [List.foldl_cons]
      have hz : optionTag lib c o = ⟨"", "", []⟩ := by
        rcases optionTag_cases lib c o with ⟨h, _⟩ | ⟨h, _⟩ | ⟨h, _⟩ | ⟨h, _⟩ | ⟨h, _⟩ | ⟨_, h⟩
        · exact absurd (by simp [h]) ho
        · exact absurd (by simp [h]) ho
        · exact absurd (by simp [h]) ho
        · exact absurd (by simp [h]) ho
        · exact absurd (by simp [h]) ho
        · exact h
      have hset : Tags.Set tags (optionTag lib c o) = tags := by
        rw [hz]
        simp [Tags.Set]
      rw [hset]
      exact ih tags

/-- C13. Options that are none of `json`, `xml`, `gorm`, `sqlx`, `csv` are passed
over: for every column and list of options `fieldTags` returns what it returns for
the list without them, a list of such options only gives the empty string, and no
entry of the result has the empty key. -/
theorem fieldTags_skips_unrecognized (lib : GoLib) (c : Column) (options : List String) :
    fieldTags lib c options =
      fieldTags lib c
        (options.filter (fun o => decide (o ∈ ["json", "xml", "gorm", "sqlx", "csv"]))) ∧
    ((∀ o ∈ options, o ∉ ["json", "xml", "gorm", "sqlx", "csv"]) →
      fieldTags lib c options = "") ∧
    (∃ entries : List Tag,
      fieldTags lib c options =
        " ".intercalate (entries.map (fun t => t.Key ++ ":" ++ lib.Quote t.Value)) ∧
      ∀ t ∈ entries, t.Key ≠ "") := by
  have h1 : fieldTags lib c options = fieldTags lib c
      (options.filter (fun o => decide (o ∈ ["json", "xml", "gorm", "sqlx", "csv"]))) := by
    unfold fieldTags
    simp only [tags_fold_filter]
  refine ⟨h1, ?_, ?_⟩
  · intro hall
    rw [h1]
    have hnil : options.filter
        (fun o => decide (o ∈ ["json", "xml", "gorm", "sqlx", "csv"])) = [] := by
      rw [List.filter_eq_nil_iff]
      intro o ho
      simpa using hall o ho
    rw [hnil]
    rfl
  · exact ⟨_, rfl, fun t ht => ((fieldTags_tags lib c options).2 t).mp ht |>.1⟩

theorem fieldTags_skips_unrecognized_witness :
    fieldTags asciiLib ⟨"user_id", "int", "NO", intDef⟩ ["yaml", "bson"] = "" :=
  (fieldTags_skips_unrecognized asciiLib ⟨"user_id", "int", "NO", intDef⟩ ["yaml", "bson"]).2.1
    (by decide)

/-- C14 (as stated, refuted). The entry made for the option `sqlx` has the key `db`,
not `sqlx`. -/
theorem sqlx_entry_key_is_db :
    (optionTag asciiLib ⟨"id", "int", "NO", intDef⟩ "sqlx").Key = "db" ∧
    (optionTag asciiLib ⟨"id", "int", "NO", intDef⟩ "sqlx").Key ≠ "sqlx" ∧
    fieldTags asciiLib ⟨"id", "int", "NO", intDef⟩ ["sqlx"] = "db:\"id\"" := by
  decide

/-- C14 (amended). For every column, the entry made for each of the options `json`,
`xml`, `csv` and `gorm` has the name of the option as its key, and the entry made for
the option `sqlx` has the key `db`. -/
theorem entry_keys (lib : GoLib) (c : Column) :
    (optionTag lib c "json").Key = "json" ∧ (optionTag lib c "xml").Key = "xml" ∧
    (optionTag lib c "csv").Key = "csv" ∧ (optionTag lib c "gorm").Key = "gorm" ∧
    (optionTag lib c "sqlx").Key = "db" ∧
    (JSONTags lib c).Key = "json" ∧ (XMLTags lib c).Key = "xml" ∧
    (CSVTags lib c).Key = "csv" ∧ (GormTags c).Key = "gorm" ∧ (SQLXTags c).Key = "db" :=
  ⟨rfl, rfl, rfl, rfl, rfl, rfl, rfl, rfl, rfl, rfl⟩

theorem value_omitempty (name : String) :
    Tag.Value ⟨"", name, ["omitempty"]⟩ = name ++ ",omitempty" := by
  have h : Tag.Value ⟨"", name, ["omitempty"]⟩ = name ++ "," ++ "omitempty" := rfl
  rw [h, String.append_assoc]
  rfl

theorem toLower_not_upper (ch : Char) : ch.toLower.isUpper = false := by
  unfold Char.toLower
  simp only []
  split_ifs with hr
  · obtain ⟨h1, h2⟩ := hr
    have h3 : ch.toNat + 32 < 128 := by omega
    have h4 : 97 ≤ ch.toNat + 32 := by omega
    generalize ch.toNat + 32 = k at h3 h4
    interval_cases k <;> rfl
  · have h5 : ¬ (ch.val ≥ 65 ∧ ch.val ≤ 90) := by
      intro h
      apply hr
      have e : ch.toNat = ch.val.toNat := rfl
      rw [e]
      exact ⟨h.1, h.2⟩
    simpa [Char.isUpper] using h5

/-- C15. For every column whose name is printed by the quoting of `structtag` as it
is between two double quotes, as a name of letters, digits and `_` is: the entries
for `json`, `xml` and `csv` have as their name the column name with `unicode.ToLower`
applied to every character and the one option `omitempty`, and are printed
`json:"<lower-cased name>,omitempty"` and likewise; the entry for `gorm` has the name
`column:` followed by the column name as it is and no option, and is printed
`gorm:"column:<name>"`.  Where `unicode.ToLower` acts on the characters of the name as
the lower-casing of ASCII does, the name of the three entries holds no letter of
`A`..`Z`. -/
theorem entries_of_column (lib : GoLib) (c : Column)
    (hq1 : lib.Quote (String.mk (c.Name.data.map lib.ToLower) ++ ",omitempty") =
      "\"" ++ String.mk (c.Name.data.map lib.ToLower) ++ ",omitempty\"")
    (hq2 : lib.Quote ("column:" ++ c.Name) = "\"column:" ++ c.Name ++ "\"") :
    JSONTags lib c = ⟨"json", String.mk (c.Name.data.map lib.ToLower), ["omitempty"]⟩ ∧
    XMLTags lib c = ⟨"xml", String.mk (c.Name.data.map lib.ToLower), ["omitempty"]⟩ ∧
    CSVTags lib c = ⟨"csv", String.mk (c.Name.data.map lib.ToLower), ["omitempty"]⟩ ∧
    GormTags c = ⟨"gorm", "column:" ++ c.Name, []⟩ ∧
    fieldTags lib c ["json"] =
      "json:\"" ++ String.mk (c.Name.data.map lib.ToLower) ++ ",omitempty\"" ∧
    fieldTags lib c ["xml"] =
      "xml:\"" ++ String.mk (c.Name.data.map lib.ToLower) ++ ",omitempty\"" ∧
    fieldTags lib c ["csv"] =
      "csv:\"" ++ String.mk (c.Name.data.map lib.ToLower) ++ ",omitempty\"" ∧
    fieldTags lib c ["gorm"] = "gorm:\"column:" ++ c.Name ++ "\"" ∧
    ((∀ ch ∈ c.Name.data, lib.ToLower ch = ch.toLower) →
      (JSONTags lib c).Name = String.mk (c.Name.data.map Char.toLower) ∧
      (XMLTags lib c).Name = String.mk (c.Name.data.map Char.toLower) ∧
      (CSVTags lib c).Name = String.mk (c.Name.data.map Char.toLower) ∧
      ∀ ch ∈ (JSONTags lib c).Name.data, ch.isUpper = false) := by
  have hv : Tag.Value ⟨"", String.mk (c.Name.data.map lib.ToLower), ["omitempty"]⟩ =
      String.mk (c.Name.data.map lib.ToLower) ++ ",omitempty" := value_omitempty _
  have hj : fieldTags lib c ["json"] = "json" ++ ":" ++
      lib.Quote (Tag.Value ⟨"", String.mk (c.Name.data.map lib.ToLower), ["omitempty"]⟩) := rfl
  have hx : fieldTags lib c ["xml"] = "xml" ++ ":" ++
      lib.Quote (Tag.Value ⟨"", String.mk (c.Name.data.map lib.ToLower), ["omitempty"]⟩) := rfl
  have hc : fieldTags lib c ["csv"] = "csv" ++ ":" ++
      lib.Quote (Tag.Value ⟨"", String.mk (c.Name.data.map lib.ToLower), ["omitempty"]⟩) := rfl
  have hg : fieldTags lib c ["gorm"] = "gorm" ++ ":" ++ lib.Quote ("column:" ++ c.Name) := rfl
  refine ⟨rfl, rfl, rfl, rfl, ?_, ?_, ?_, ?_, ?_⟩
  · rw [hj, hv, hq1]
    apply String.ext
    simp [String.data_append]
  · rw [hx, hv, hq1]
    apply String.ext
    simp [String.data_append]
  · rw [hc, hv, hq1]
    apply String.ext
    simp [String.data_append]
  · rw [hg, hq2]
    apply String.ext
    simp [String.data_append]
  · intro hlow
    have hmap : c.Name.data.map lib.ToLower = c.Name.data.map Char.toLower :=
      List.map_congr_left hlow
    have hname : (JSONTags lib c).Name = String.mk (c.Name.data.map Char.toLower) := by
      show String.mk (c.Name.data.map lib.ToLower) = _
      rw [hmap]
    have hnamex : (XMLTags lib c).Name = String.mk (c.Name.data.map Char.toLower) := by
      show String.mk (c.Name.data.map lib.ToLower) = _
      rw [hmap]
    have hnamec : (CSVTags lib c).Name = String.mk (c.Name.data.map Char.toLower) := by
      show String.mk (c.Name.data.map lib.ToLower) = _
      rw [hmap]
    refine ⟨hname, hnamex, hnamec, ?_⟩
    intro ch hch
    rw [hname] at hch
    obtain ⟨x, _, rfl⟩ := List.mem_map.mp hch
    exact toLower_not_upper x

theorem entries_of_column_witness :
    JSONTags asciiLib ⟨"User_Id", "int", "NO", intDef⟩ = ⟨"json", "user_id", ["omitempty"]⟩ ∧
    XMLTags asciiLib ⟨"User_Id", "int", "NO", intDef⟩ = ⟨"xml", "user_id", ["omitempty"]⟩ ∧
    CSVTags asciiLib ⟨"User_Id", "int", "NO", intDef⟩ = ⟨"csv", "user_id", ["omitempty"]⟩ ∧
    GormTags ⟨"User_Id", "int", "NO", intDef⟩ = ⟨"gorm", "column:User_Id", []⟩ ∧
    fieldTags asciiLib ⟨"User_Id", "int", "NO", intDef⟩ ["json"] = "json:\"user_id,omitempty\"" ∧
    fieldTags asciiLib ⟨"User_Id", "int", "NO", intDef⟩ ["xml"] = "xml:\"user_id,omitempty\"" ∧
    fieldTags asciiLib ⟨"User_Id", "int", "NO", intDef⟩ ["csv"] = "csv:\"user_id,omitempty\"" ∧
    fieldTags asciiLib ⟨"User_Id", "int", "NO", intDef⟩ ["gorm"] = "gorm:\"column:User_Id\"" ∧
    (JSONTags asciiLib ⟨"User_Id", "int", "NO", intDef⟩).Name = "user_id" ∧
    (∀ ch ∈ (JSONTags asciiLib ⟨"User_Id", "int", "NO", intDef⟩).Name.data,
      ch.isUpper = false) := by
  have h := entries_of_column asciiLib ⟨"User_Id", "int", "NO", intDef⟩ (by decide) (by decide)
  obtain ⟨h1, h2, h3, h4, h5, h6, h7, h8, h9⟩ := h
  obtain ⟨h10, _, _, h11⟩ := h9 (fun _ _ => rfl)
  exact ⟨h1, h2, h3, h4, h5, h6, h7, h8, h10, h11⟩

theorem appendMethods_some (lib : GoLib) (structname tablename fragment : String)
    (hf : GormTableName lib structname tablename = some fragment) (options : List String) :
    ∀ methods, appendMethods lib structname tablename methods options =
      some (methods ++ (options.filter (fun o => decide (o = "gorm"))).map (fun _ => fragment)) := by
  induction options with
  | nil => intro methods; simp [appendMethods]
  | cons o options ih =>
    intro methods
    by_cases ho : o = "gorm"
    · rw [appendMethods, if_pos ho, hf]
      simp only []
      rw [ih, List.filter_cons_of_pos (by simpa using ho)]
      simp
    · rw [appendMethods, if_neg ho, ih, List.filter_cons_of_neg (by simpa using ho)]

theorem GormTableName_some (lib : GoLib) (structname tablename : String)
    (h : structname ≠ "") : ∃ fragment, GormTableName lib structname tablename = some fragment := by
  unfold GormTableName
  cases hd : structname.data with
  | nil => exact absurd (String.ext hd) h
  | cons c cs => exact ⟨_, rfl⟩

/-- C16. On the empty struct name and the options `gorm`, `structMethods` does not
return: `GormTableName` reads `structname[0]`.  For every struct name that is not
empty, every table name and every list of options, it returns the fragments of
`GormTableName`, one for each occurrence of `gorm` in the order of the options,
separated by newlines, and nothing for any other option; the options `unknown_option`
alone give the empty string for every struct name. -/
theorem structMethods_fragments (lib : GoLib) (structname tablename : String)
    (options : List String) :
    structMethods lib "" tablename ["gorm"] = none ∧
    (structname ≠ "" →
      ∃ fragment, GormTableName lib structname tablename = some fragment ∧
        structMethods lib structname tablename options =
          some ("\n".intercalate
            ((options.filter (fun o => decide (o = "gorm"))).map (fun _ => fragment)))) ∧
    structMethods lib structname tablename ["unknown_option"] = some "" := by
  refine ⟨rfl, ?_, rfl⟩
  intro h
  obtain ⟨fragment, hf⟩ := GormTableName_some lib structname tablename h
  refine ⟨fragment, hf, ?_⟩
  unfold structMethods
  rw [appendMethods_some lib structname tablename fragment hf]
  simp

theorem structMethods_fragments_witness :
    ∃ fragment, GormTableName asciiLib "UserAccounts" "user_accounts" = some fragment ∧
      structMethods asciiLib "UserAccounts" "user_accounts" ["gorm", "other", "gorm"] =
        some ("\n".intercalate
          ((["gorm", "other", "gorm"].filter (fun o => decide (o = "gorm"))).map
            (fun _ => fragment))) :=
  (structMethods_fragments asciiLib "UserAccounts" "user_accounts"
    ["gorm", "other", "gorm"]).2.1 (by decide)

theorem scanRows_first_miss (sizes : String → String)
    (typeMap : List (String × ColumnDefinition)) (pre : List Row) (r : Row) (post : List Row)
    (hr : typeMap.lookup (sizes r.data_type) = none) :
    ∀ t : Table, (∀ p ∈ pre, typeMap.lookup (sizes p.data_type) ≠ none) →
      scanRows sizes typeMap t (pre ++ r :: post) =
        .error (unrecognizedColumnType (sizes r.data_type)) := by
  induction pre with
  | nil =>
    intro t _
    simp only [List.nil_append, scanRows, hr]
  | cons p pre ih =>
    intro t hpre
    have hp := hpre p (List.mem_cons_self _ _)
    cases hl : typeMap.lookup (sizes p.data_type) with
    | none => exact absurd hl hp
    | some d =>
      simp only [List.cons_append, scanRows, hl]
      exact ih _ (fun q hq => hpre q (List.mem_cons_of_mem _ hq))

/-- C17 (as stated, refuted). The failure on an unrecognized type is the same message
for two providers, two databases and two tables, and it holds the type after the
removal of the size, not the type the query returned: the scanned types
`geometry(4326)` and `geometry` give the same failure. -/
theorem unrecognized_error_carries_type_only :
    PostgreSQL.Build "shop" "places" [⟨"shape", "geometry(4326)", "YES"⟩] =
      .error "Unrecognized column type field: geometry" ∧
    Vertica.Build "crm" "areas" [⟨"shape", "geometry(4326)", "YES"⟩] =
      .error "Unrecognized column type field: geometry" ∧
    PostgreSQL.Build "shop" "places" [⟨"shape", "geometry", "YES"⟩] =
      .error "Unrecognized column type field: geometry" :=
  ⟨rfl, rfl, rfl⟩

/-- C17 (amended). When `Build` fails because of an unrecognized column type, the
failure is the message `Unrecognized column type field: ` followed by the type of the
first row whose type is no key of the map, in the form in which it was looked up,
that is after the provider's removal of sizes (as scanned for MariaDB); the message
is the same for every database name and table name. -/
theorem unrecognized_error_message (d : Database) (database table : String)
    (pre : List Row) (r : Row) (post : List Row)
    (hpre : ∀ p ∈ pre, d.typeMap.lookup (d.normalize p.data_type) ≠ none)
    (hr : d.typeMap.lookup (d.normalize r.data_type) = none) :
    d.Build database table (pre ++ r :: post) =
      .error ("Unrecognized column type field: " ++ d.normalize r.data_type) := by
  rw [Database.Build_eq]
  unfold buildTable
  rw [scanRows_first_miss _ _ pre r post hr _ hpre]
  rfl

theorem unrecognized_error_message_witness :
    Database.PostgreSQL.Build "shop" "places"
        ([⟨"id", "integer", "NO"⟩] ++ ⟨"shape", "geometry(4326)", "YES"⟩ :: [⟨"name", "text", "NO"⟩]) =
      .error ("Unrecognized column type field: " ++
        Database.PostgreSQL.normalize "geometry(4326)") :=
  unrecognized_error_message Database.PostgreSQL "shop" "places" [⟨"id", "integer", "NO"⟩]
    ⟨"shape", "geometry(4326)", "YES"⟩ [⟨"name", "text", "NO"⟩] (by decide) (by decide)

set_option maxRecDepth 100000 in
/-- C18. Every entry of each of the three maps carries one of six triples: (`int`,
`null.Int`, `sql.NullInt64`), (`string`, `null.String`, `sql.NullString`),
(`time.Time`, `null.Time`, `mysql.NullTime`), (`float64`, `null.Float`,
`sql.NullFloat64`), (`[]byte`, `[]byte`, `[]byte`), (`bool`, `null.Bool`, `null.Bool`).
Hence the plain type of an entry fixes its two nullable spellings, in one map and
across maps, and a type name that is a key of two maps has the same definition in
both. -/
theorem type_maps_six_triples :
    (∀ d : Database, ∀ p ∈ d.typeMap,
      p.2 ∈ [(⟨"int", "null.Int", "sql.NullInt64"⟩ : ColumnDefinition),
        ⟨"string", "null.String", "sql.NullString"⟩,
        ⟨"time.Time", "null.Time", "mysql.NullTime"⟩,
        ⟨"float64", "null.Float", "sql.NullFloat64"⟩,
        ⟨"[]byte", "[]byte", "[]byte"⟩,
        ⟨"bool", "null.Bool", "null.Bool"⟩]) ∧
    (∀ d1 d2 : Database, ∀ p ∈ d1.typeMap, ∀ q ∈ d2.typeMap,
      p.2.GoType = q.2.GoType → p.2 = q.2) ∧
    (∀ d1 d2 : Database, ∀ p ∈ d1.typeMap, ∀ q ∈ d2.typeMap, p.1 = q.1 → p.2 = q.2) := by
  refine ⟨?_, ?_, ?_⟩
  · intro d
    cases d <;> decide
  · intro d1 d2
    cases d1 <;> cases d2 <;> decide
  · intro d1 d2
    cases d1 <;> cases d2 <;> decide

/-- C19 (as stated, refuted). Removing sizes twice is not the same as removing them
once: from `((1)2)` the first removal leaves `(2)`, which a second removal deletes. -/
theorem removeSizes_not_stable :
    removeSizes "((1)2)" = "(2)" ∧ removeSizes (removeSizes "((1)2)") = "" ∧
    removeSizes (removeSizes "((1)2)") ≠ removeSizes "((1)2)" := by
  decide

/-- C19 (amended). The removal of sizes is stable on every type string whose result
holds no `(`: applied to its own result it changes nothing.  This is so for a type
name `k` without `(` followed by nothing, by `(n)` or by `(n,m)`, with `n` and `m`
non-empty strings of digits, where the result is `k`. -/
theorem removeSizes_stable (s : String) (hs : ∀ c ∈ (removeSizes s).data, c ≠ '(')
    (k n m : String) (hk : ∀ c ∈ k.data, c ≠ '(')
    (hn : ∀ c ∈ n.data, c.isDigit = true) (hm : ∀ c ∈ m.data, c.isDigit = true)
    (hn0 : n ≠ "") (hm0 : m ≠ "") :
    removeSizes (removeSizes s) = removeSizes s ∧
    removeSizes (removeSizes k) = removeSizes k ∧
    removeSizes (removeSizes (k ++ "(" ++ n ++ ")")) = removeSizes (k ++ "(" ++ n ++ ")") ∧
    removeSizes (removeSizes (k ++ "(" ++ n ++ "," ++ m ++ ")")) =
      removeSizes (k ++ "(" ++ n ++ "," ++ m ++ ")") := by
  refine ⟨removeSizes_plain _ hs, ?_, ?_, ?_⟩
  · rw [removeSizes_plain k hk]
    exact removeSizes_plain k hk
  · rw [removeSizes_size k n hk hn hn0, removeSizes_plain k hk]
  · rw [removeSizes_precision k n m hk hn hm hn0 hm0, removeSizes_plain k hk]

theorem removeSizes_stable_witness :
    removeSizes (removeSizes "a(1)(2,3)b") = removeSizes "a(1)(2,3)b" ∧
    removeSizes (removeSizes "numeric") = removeSizes "numeric" ∧
    removeSizes (removeSizes ("numeric" ++ "(" ++ "10" ++ ")")) =
      removeSizes ("numeric" ++ "(" ++ "10" ++ ")") ∧
    removeSizes (removeSizes ("numeric" ++ "(" ++ "10" ++ "," ++ "2" ++ ")")) =
      removeSizes ("numeric" ++ "(" ++ "10" ++ "," ++ "2" ++ ")") :=
  removeSizes_stable "a(1)(2,3)b" (by decide) "numeric" "10" "2" (by decide) (by decide)
    (by decide) (by decide) (by decide)

/-- C20. For every column whose nullable flag is `YES`, `t` or `true` and every
nullable mode other than `guregu` and `sql`, the empty mode of an unset option among
them, `fieldType` returns the plain `Definition.GoType`, and this is the type on the
line `Generate` writes for the column. -/
theorem fieldType_other_mode (lib : GoLib) (c : Column) (ctx : Context)
    (_hnull : c.DatabaseNullable = "YES" ∨ c.DatabaseNullable = "t" ∨
      c.DatabaseNullable = "true")
    (hg : ctx.nullabletype ≠ "guregu") (hs : ctx.nullabletype ≠ "sql") :
    fieldType c ctx.nullabletype = c.Definition.GoType ∧
    fieldType c "" = c.Definition.GoType ∧
    fieldLine lib ctx c =
      fieldName lib c ++ " \t " ++ c.Definition.GoType ++
        (if ctx.tags ≠ "" then " \t `" ++ fieldTags lib c (Split ctx.tags ',') ++ "`\n"
         else " \t\n") := by
  have h1 : fieldType c ctx.nullabletype = c.Definition.GoType := by
    simp [fieldType, hg, hs]
  have h2 : fieldType c "" = c.Definition.GoType := by
    have e1 : ("" : String) ≠ "guregu" := by decide
    have e2 : ("" : String) ≠ "sql" := by decide
    simp [fieldType, e1, e2]
  refine ⟨h1, h2, ?_⟩
  rw [fieldLine_eq, h1]

theorem fieldType_other_mode_witness :
    fieldType ⟨"email", "character varying", "YES", stringDef⟩ "" = stringDef.GoType ∧
    fieldType ⟨"email", "character varying", "YES", stringDef⟩ "" = stringDef.GoType ∧
    fieldLine asciiLib ⟨"", "", ""⟩ ⟨"email", "character varying", "YES", stringDef⟩ =
      fieldName asciiLib ⟨"email", "character varying", "YES", stringDef⟩ ++ " \t " ++
        stringDef.GoType ++
        (if ("" : String) ≠ "" then
          " \t `" ++ fieldTags asciiLib ⟨"email", "character varying", "YES", stringDef⟩
            (Split "" ',') ++ "`\n"
         else " \t\n") :=
  fieldType_other_mode asciiLib ⟨"email", "character varying", "YES", stringDef⟩ ⟨"", "", ""⟩
    (Or.inl rfl) (by decide) (by decide)

theorem upper_flatten_length (lib : GoLib) (pieces : List (List Char)) :
    (pieces.map (fun w => (w.take 1).map lib.ToUpper ++ w.drop 1)).flatten.length =
      pieces.flatten.length := by
  induction pieces with
  | nil => rfl
  | cons w pieces ih =>
    simp only [List.map_cons, List.flatten_cons, List.length_append, ih, List.length_map,
      List.length_take, List.length_drop]
    omega

/-- The struct name is empty exactly for a table name of `_` characters only. -/
theorem structName_empty_iff (lib : GoLib) (tablename : String) :
    structName lib tablename = "" ↔ ∀ c ∈ tablename.data, c = '_' := by
  have hlen : (structName lib tablename).data.length =
      (tablename.data.filter (fun c => c ≠ '_')).length := by
    rw [structName_data, upper_flatten_length, splitChars_join]
  constructor
  · intro h
    rw [h] at hlen
    have hnil : tablename.data.filter (fun c => c ≠ '_') = [] :=
      List.length_eq_zero.mp hlen.symm
    intro c hc
    by_contra hne
    have : c ∈ tablename.data.filter (fun c => c ≠ '_') :=
      List.mem_filter.mpr ⟨hc, by simpa using hne⟩
    rw [hnil] at this
    exact absurd this (List.not_mem_nil _)
  · intro h
    have hnil : tablename.data.filter (fun c => c ≠ '_') = [] := by
      rw [List.filter_eq_nil_iff]
      intro c hc
      simpa using h c hc
    rw [hnil] at hlen
    exact String.ext (List.length_eq_zero.mp hlen)

theorem appendMethods_none (lib : GoLib) (structname tablename : String)
    (hf : GormTableName lib structname tablename = none) (options : List String) :
    ∀ methods, appendMethods lib structname tablename methods options =
      if "gorm" ∈ options then none else some methods := by
  induction options with
  | nil => intro methods; simp [appendMethods]
  | cons o options ih =>
    intro methods
    by_cases ho : o = "gorm"
    · rw [appendMethods, if_pos ho, hf]
      simp [ho]
    · rw [appendMethods, if_neg ho, ih]
      have : ("gorm" ∈ o :: options) ↔ "gorm" ∈ options := by
        simp [List.mem_cons, Ne.symm ho]
      simp only [this]

theorem GormTableName_none_iff (lib : GoLib) (structname tablename : String) :
    GormTableName lib structname tablename = none ↔ structname = "" := by
  constructor
  · intro h
    by_contra hne
    obtain ⟨fragment, hf⟩ := GormTableName_some lib structname tablename hne
    rw [hf] at h
    exact absurd h (by simp)
  · intro h
    subst h
    rfl

/-- When `structMethods` does not return: some option is `gorm` and the struct name
is empty. -/
theorem structMethods_none_iff (lib : GoLib) (structname tablename : String)
    (options : List String) :
    structMethods lib structname tablename options = none ↔
      ("gorm" ∈ options ∧ structname = "") := by
  unfold structMethods
  by_cases hs : structname = ""
  · rw [appendMethods_none lib structname tablename
      ((GormTableName_none_iff lib structname tablename).mpr hs)]
    by_cases hg : "gorm" ∈ options
    · simp [hg, hs]
    · simp [hg]
  · obtain ⟨fragment, hf⟩ := GormTableName_some lib structname tablename hs
    rw [appendMethods_some lib structname tablename fragment hf]
    simp [hs]

theorem split_empty (sep : Char) : Split "" sep = [""] := rfl

/-- C21. `Generate` fails at run time exactly when some method option is `gorm` and
the table name consists of `_` characters only, the struct name then being empty and
`structname[0]` out of range; so it does on the table name `_`, which is not empty.
For every other table name it returns. -/
theorem generate_fails_iff_underscores (lib : GoLib) (ctx : Context) (dbName : String)
    (t : Table) :
    (Generate lib ctx dbName t = none ↔
      ("gorm" ∈ Split ctx.methods ',' ∧ ∀ c ∈ t.Name.data, c = '_')) ∧
    structName lib "_" = "" ∧
    GormTableName lib (structName lib "_") "_" = none ∧
    (∀ tags nullabletype columns,
      Generate lib ⟨tags, nullabletype, "gorm"⟩ dbName ⟨columns, "_"⟩ = none) := by
  refine ⟨?_, rfl, rfl, ?_⟩
  · rw [Generate_eq]
    by_cases hm : ctx.methods = ""
    · rw [if_neg (not_not.mpr hm), hm, split_empty]
      simp
    · rw [if_pos hm]
      simp only [Option.map_eq_none', structMethods_none_iff, structName_empty_iff]
  · intro tags nullabletype columns
    rfl

theorem sprintfNoOperands_plain (l : List Char) (h : '%' ∉ l) : sprintfNoOperands l = l := by
  induction l with
  | nil => rfl
  | cons c cs ih =>
    have hc : c ≠ '%' := fun e => h (e ▸ List.mem_cons_self _ _)
    have hcs : '%' ∉ cs := fun e => h (List.mem_cons_of_mem _ e)
    unfold sprintfNoOperands
    split
    · rename_i heq; simp at heq
    · rename_i heq
      simp only [List.cons.injEq] at heq
      exact absurd heq.1 hc
    · rename_i heq
      simp only [List.cons.injEq] at heq
      exact absurd heq.1 hc
    · rename_i heq
      simp only [List.cons.injEq] at heq
      exact absurd heq.1 hc
    · rename_i c2 cs2 _ _ _ heq
      simp only [List.cons.injEq] at heq
      obtain ⟨h1, h2⟩ := heq
      subst h1 h2
      rw [ih hcs]

set_option maxRecDepth 100000 in
/-- C22. The text `Generate` emits behind the closing of the type is what `Fprintf`
makes of the string of `structMethods` taken as a format, not that string itself.
For a string without `%` the two are the same; for the table name `a%%b` the method
text of `structMethods` returns `a%%b`, and the emitted method returns `a%b`. -/
theorem generate_methods_text_is_formatted :
    (∀ (lib : GoLib) (ctx : Context) (dbName : String) (t : Table), ctx.methods ≠ "" →
      Generate lib ctx dbName t =
        (structMethods lib (structName lib t.Name) t.Name (Split ctx.methods ',')).map
          (fun methods =>
            "// " ++ structName lib t.Name ++ " is the go struct representation of " ++ dbName
              ++ "." ++ t.Name ++ " \n type " ++ structName lib t.Name ++ " struct \x7b\n"
              ++ String.join (t.Columns.map (fun column =>
                  fieldName lib column ++ " \t " ++ fieldType column ctx.nullabletype ++
                    (if ctx.tags ≠ "" then
                      " \t `" ++ fieldTags lib column (Split ctx.tags ',') ++ "`\n"
                     else " \t\n")))
              ++ "\n\x7d\n\n" ++ lib.Sprintf methods)) ∧
    (∀ text : String, '%' ∉ text.data → asciiLib.Sprintf text = text) ∧
    structMethods asciiLib (structName asciiLib "a%%b") "a%%b" ["gorm"] =
      some "\n  // TableName manually overrides gorms defaults of taking the struct name and pluralizing it \n  // http://jinzhu.me/gorm/models.html#conventions\n\tfunc (a *A%%b) TableName() string \x7b\n\t\t\treturn \"a%%b\"\n\t\x7d\n" ∧
    Generate asciiLib ⟨"", "", "gorm"⟩ "shop" ⟨[⟨"id", "int", "NO", intDef⟩], "a%%b"⟩ =
      some ("// A%%b is the go struct representation of shop.a%%b \n type A%%b struct \x7b\nId \t int \t\n\n\x7d\n\n"
        ++ "\n  // TableName manually overrides gorms defaults of taking the struct name and pluralizing it \n  // http://jinzhu.me/gorm/models.html#conventions\n\tfunc (a *A%b) TableName() string \x7b\n\t\t\treturn \"a%b\"\n\t\x7d\n") := by
  refine ⟨?_, ?_, ?_, ?_⟩
  · intro lib ctx dbName t hm
    rw [Generate_eq, if_pos hm]
    cases structMethods lib (structName lib t.Name) t.Name (Split ctx.methods ',') <;> rfl
  · intro text h
    show String.mk (sprintfNoOperands text.data) = text
    rw [sprintfNoOperands_plain _ h]
  · decide
  · decide

end GoStructify
